import Mathlib

/-!
Verification development for the HFTPM trading engine (Rust sources under
`src/`).  Rust `rust_decimal::Decimal` values are modelled as exact
rationals `ℚ`; `u64`/`usize` as `ℕ`; millisecond/second timestamps as `ℤ`.
`HashMap`/`BTreeMap` state is modelled with association lists; iteration
order matches list order (all the folds proved about are
order-insensitive in the properties stated).  Wall-clock reads
(`SystemTime::now`, `Utc::now`) become explicit `now`/`today` parameters.
-/

namespace HFTPM

/-- Model of `rust_decimal::Decimal`: exact rational arithmetic. -/
abbrev Dec := ℚ

/-! ### Association-list maps (model of `HashMap` / `DashMap`) -/

/-- Lookup in an association list (model of `HashMap::get`). -/
def alookup {α : Type} (l : List (String × α)) (k : String) : Option α :=
  (l.find? (fun p => p.1 = k)).map (fun p => p.2)

/-- Insert-or-replace (model of `HashMap::insert`): replaces the first
binding of `k`, appends when the key is absent. -/
def ainsert {α : Type} (l : List (String × α)) (k : String) (v : α) :
    List (String × α) :=
  match l with
  | [] => [(k, v)]
  | p :: rest => if p.1 = k then (k, v) :: rest else p :: ainsert rest k v

/-- Model of `entry(k).or_insert(0) += v` on a `HashMap<String, Decimal>`. -/
def aadd (l : List (String × Dec)) (k : String) (v : Dec) :
    List (String × Dec) :=
  match l with
  | [] => [(k, v)]
  | p :: rest => if p.1 = k then (k, p.2 + v) :: rest else p :: aadd rest k v

/-- Model of writing through `get_mut(k)`: replaces the value of an existing
binding, identity when the key is absent (the code only does this after a
successful lookup). -/
def aset (l : List (String × Dec)) (k : String) (v : Dec) :
    List (String × Dec) :=
  match l with
  | [] => []
  | p :: rest => if p.1 = k then (k, v) :: rest else p :: aset rest k v

/-! ### `websocket/types.rs` -/

/-- `BookSnapshot` from `src/websocket/types.rs`. -/
structure BookSnapshot where
  asset_id : String
  market : String
  bids : List (Dec × Dec)
  asks : List (Dec × Dec)
  timestamp : Int
  hash : String
deriving DecidableEq, Repr

/-- `BookSnapshot::is_stale` (`src/websocket/types.rs:76-88`): compares the
snapshot timestamp against the current wall clock `now`, not against any
stored book timestamp. -/
def BookSnapshot.is_stale (s : BookSnapshot) (now : Int) (max_age_ms : Int) :
    Bool :=
  now - s.timestamp > max_age_ms

/-! ### `orderbook/manager.rs` -/

/-- Insert into a `BTreeMap<Decimal, Decimal>` modelled as a sorted
association list: later insertions of an existing key replace the value. -/
def btreeInsert (m : List (Dec × Dec)) (k v : Dec) : List (Dec × Dec) :=
  match m with
  | [] => [(k, v)]
  | p :: rest =>
    if k < p.1 then (k, v) :: p :: rest
    else if k = p.1 then (k, v) :: rest
    else p :: btreeInsert rest k v

/-- `snapshot.bids.iter().cloned().collect::<BTreeMap<_,_>>()`. -/
def btreeOfList (l : List (Dec × Dec)) : List (Dec × Dec) :=
  l.foldl (fun m p => btreeInsert m p.1 p.2) []

/-- `OrderBook` from `src/orderbook/manager.rs`. -/
structure OrderBook where
  market_id : String
  asset_id : String
  bids : List (Dec × Dec)
  asks : List (Dec × Dec)
  timestamp : Int
  hash : String
deriving DecidableEq, Repr

/-- `OrderBook::new`. -/
def OrderBook.new (market_id asset_id : String) (timestamp : Int)
    (hash : String) : OrderBook :=
  { market_id := market_id, asset_id := asset_id, bids := [], asks := [],
    timestamp := timestamp, hash := hash }

/-- `OrderBook::update_from_snapshot`. -/
def OrderBook.update_from_snapshot (b : OrderBook) (s : BookSnapshot) :
    OrderBook :=
  { b with bids := btreeOfList s.bids, asks := btreeOfList s.asks,
           timestamp := s.timestamp, hash := s.hash }

/-- `MarketBooks` from `src/orderbook/manager.rs`. -/
structure MarketBooks where
  market_id : String
  asset_id_yes : Option String
  asset_id_no : Option String
  books : List OrderBook
deriving DecidableEq, Repr

/-- `MarketBooks::new`. -/
def MarketBooks.new (market_id : String) : MarketBooks :=
  { market_id := market_id, asset_id_yes := none, asset_id_no := none,
    books := [] }

/-- The books-vector update inside `OrderBookManager::update_book`: replace
the book at the position whose `asset_id` matches, else push at the end. -/
def replaceOrPush (books : List OrderBook) (asset_id : String)
    (nb : OrderBook) : List OrderBook :=
  match books with
  | [] => [nb]
  | b :: rest =>
    if b.asset_id = asset_id then nb :: rest
    else b :: replaceOrPush rest asset_id nb

/-- The Yes/No tagging step of `OrderBookManager::update_book`
(`src/orderbook/manager.rs:237-251`): when the market holds exactly two
books, compare the FIRST book's bid-level count against its own ask-level
count and tag accordingly.  The second book's level counts are never
examined. -/
def retagIfTwo (mb : MarketBooks) : MarketBooks :=
  match mb.books with
  | [b0, b1] =>
    if b0.bids.length > b0.asks.length then
      { mb with asset_id_yes := some b0.asset_id,
                asset_id_no := some b1.asset_id }
    else
      { mb with asset_id_yes := some b1.asset_id,
                asset_id_no := some b0.asset_id }
  | _ => mb

/-- The per-market body of `OrderBookManager::update_book` after the
staleness guard. -/
def MarketBooks.applySnapshot (mb : MarketBooks) (market_id asset_id : String)
    (s : BookSnapshot) : MarketBooks :=
  let nb := (OrderBook.new market_id asset_id s.timestamp s.hash).update_from_snapshot s
  retagIfTwo { mb with books := replaceOrPush mb.books asset_id nb }

/-- `OrderBookManager`: the `DashMap<String, MarketBooks>` store. -/
structure OrderBookManager where
  market_books : List (String × MarketBooks)
deriving DecidableEq, Repr

/-- `OrderBookManager::update_book` (`src/orderbook/manager.rs:211-264`).
`now` is the wall clock read inside `BookSnapshot::is_stale`. -/
def OrderBookManager.update_book (mgr : OrderBookManager) (now : Int)
    (market_id asset_id : String) (s : BookSnapshot) : OrderBookManager :=
  if s.is_stale now 500 then mgr
  else
    let mb := (alookup mgr.market_books market_id).getD (MarketBooks.new market_id)
    { market_books :=
        ainsert mgr.market_books market_id
          (mb.applySnapshot market_id asset_id s) }

/-- `OrderBookManager::get_book`. -/
def OrderBookManager.get_book (mgr : OrderBookManager)
    (market_id asset_id : String) : Option OrderBook :=
  (alookup mgr.market_books market_id).bind
    (fun mb => mb.books.find? (fun b => b.asset_id = asset_id))

/-! ### `utils/mod.rs` configuration (fields used by the claims) -/

/-- The `TradingConfig` fields read by the arbitrage engine and executor. -/
structure TradingConfig where
  bankroll : ℕ
  max_arb_size : ℕ
  min_edge : Dec
  min_liquidity : ℕ
  slippage_tolerance : Dec
  short_window_min_edge : Dec
  short_window_max_size : ℕ
deriving DecidableEq, Repr

/-- The `RiskConfig` fields read by the risk manager. -/
structure RiskConfig where
  max_exposure_per_market : ℕ
  max_exposure_per_event : ℕ
  max_concurrent_arbs : ℕ
  daily_loss_limit : ℕ
  position_timeout_seconds : ℕ
  inventory_drift_threshold : Dec
deriving DecidableEq, Repr

/-! ### `arb_engine/mod.rs` -/

/-- `ArbType`. -/
inductive ArbType where
  | Binary
  | MultiOutcome
deriving DecidableEq, Repr

/-- `ArbEdge`. -/
structure ArbEdge where
  asset_id : String
  outcome : String
  price : Dec
  size : Dec
  expected_cost : Dec
deriving DecidableEq, Repr

/-- `ArbitrageOpportunity` (the display-only `detection_latency_ms` field is
elided). -/
structure ArbitrageOpportunity where
  market_id : String
  arb_type : ArbType
  edges : List ArbEdge
  total_edge : Dec
  min_liquidity : Dec
  position_size : Dec
  expected_profit_usd : Dec
  fee_cost : Dec
  net_profit : Dec
  timestamp : Int
deriving DecidableEq, Repr

/-- `ArbEngine::calculate_max_position` (`src/arb_engine/mod.rs:459-474`).
The `bankroll` argument is unused in the source as well. -/
def calculate_max_position (cfg : TradingConfig) (raw_edge min_edge : Dec)
    (bankroll : ℕ) : Dec :=
  let edge_ratio := raw_edge / min_edge
  let base_max : Dec := (cfg.max_arb_size : ℚ)
  let _ := bankroll
  if edge_ratio > 1 then base_max * min edge_ratio 2 else base_max * edge_ratio

/-- `ArbEngine::detect_binary_arbitrage` (`src/arb_engine/mod.rs:240-356`).
Inputs: the market's best asks `(asset_id, price, size)` as returned by
`get_best_asks_for_market`, the blacklist verdict of the risk manager, and
the wall clock `now` used for the emitted timestamp. -/
def detect_binary_arbitrage (cfg : TradingConfig) (market_id : String)
    (best_asks : List (String × Dec × Dec)) (blacklisted : Bool)
    (now : Int) : Option ArbitrageOpportunity :=
  match best_asks with
  | [(asset_yes, price_yes, size_yes), (asset_no, price_no, size_no)] =>
    let min_liquidity := min size_yes size_no
    if min_liquidity < (cfg.min_liquidity : ℚ) then none
    else
      let sum_prices := price_yes + price_no
      if sum_prices ≥ 1 then none
      else
        let raw_edge := 1 - sum_prices
        let fee_rate : Dec := 2 / 100
        let max_position_by_edge :=
          calculate_max_position cfg raw_edge cfg.min_edge cfg.bankroll
        let max_position_by_liquidity := min_liquidity
        let max_position_by_limit : Dec := (cfg.max_arb_size : ℚ)
        let position_size :=
          min (min max_position_by_edge max_position_by_liquidity)
            max_position_by_limit
        if position_size < (cfg.min_liquidity : ℚ) then none
        else
          let expected_cost := position_size * sum_prices
          let expected_payout := position_size * 1
          let fee_cost := expected_payout * fee_rate
          let net_profit := expected_payout - expected_cost - fee_cost
          if net_profit ≤ 0 then none
          else
            let total_edge := net_profit / position_size
            if total_edge < cfg.min_edge then none
            else if blacklisted then none
            else
              some
                { market_id := market_id
                  arb_type := ArbType.Binary
                  edges :=
                    [ { asset_id := asset_yes, outcome := "YES",
                        price := price_yes, size := position_size,
                        expected_cost := position_size * price_yes },
                      { asset_id := asset_no, outcome := "NO",
                        price := price_no, size := position_size,
                        expected_cost := position_size * price_no } ]
                  total_edge := total_edge
                  min_liquidity := min_liquidity
                  position_size := position_size
                  expected_profit_usd := net_profit + fee_cost
                  fee_cost := fee_cost
                  net_profit := net_profit
                  timestamp := now }
  | _ => none

/-- `ArbEngine::detect_multi_outcome_arbitrage`
(`src/arb_engine/mod.rs:358-457`). -/
def detect_multi_outcome_arbitrage (cfg : TradingConfig) (market_id : String)
    (best_asks : List (String × Dec × Dec)) (blacklisted : Bool)
    (now : Int) : Option ArbitrageOpportunity :=
  if best_asks.length < 2 then none
  else
    let sum_prices : Dec := (best_asks.map (fun a => a.2.1)).sum
    if sum_prices ≥ 1 then none
    else
      let min_liquidity : Dec :=
        ((best_asks.map (fun a => a.2.2)).min?).getD 0
      if min_liquidity < (cfg.min_liquidity : ℚ) then none
      else
        let raw_edge := 1 - sum_prices
        let fee_rate : Dec := 2 / 100
        let max_position_by_edge :=
          calculate_max_position cfg raw_edge cfg.min_edge cfg.bankroll
        let max_position_by_liquidity :=
          min_liquidity * (best_asks.length : ℚ)
        let max_position_by_limit : Dec := (cfg.max_arb_size : ℚ)
        let position_size :=
          min (min max_position_by_edge max_position_by_liquidity)
            max_position_by_limit
        if position_size < (cfg.min_liquidity : ℚ) then none
        else
          let per_outcome_position := position_size / (best_asks.length : ℚ)
          let expected_cost := position_size * sum_prices
          let expected_payout := position_size * 1
          let fee_cost := expected_payout * fee_rate
          let net_profit := expected_payout - expected_cost - fee_cost
          if net_profit ≤ 0 then none
          else
            let total_edge := net_profit / position_size
            if total_edge < cfg.min_edge then none
            else if blacklisted then none
            else
              some
                { market_id := market_id
                  arb_type := ArbType.MultiOutcome
                  edges :=
                    best_asks.enum.map (fun ia =>
                      { asset_id := ia.2.1
                        outcome := "Outcome_" ++ toString ia.1
                        price := ia.2.2.1
                        size := per_outcome_position
                        expected_cost := per_outcome_position * ia.2.2.1 })
                  total_edge := total_edge
                  min_liquidity := min_liquidity
                  position_size := position_size
                  expected_profit_usd := net_profit + fee_cost
                  fee_cost := fee_cost
                  net_profit := net_profit
                  timestamp := now }

/-- The annualized-return computation of
`ArbEngine::detect_short_window_arbitrage` (`src/arb_engine/mod.rs:572-576`):
`cycles_per_year = 525600 / minutes_to_expiry.max(1)` and
`annualized_return = net_edge * cycles_per_year`. -/
def short_window_annualized_return (net_edge : Dec)
    (minutes_to_expiry : Int) : Dec :=
  let cycles_per_year : Dec :=
    ((365 * 24 * 60 : ℤ) : ℚ) / ((max minutes_to_expiry 1 : ℤ) : ℚ)
  net_edge * cycles_per_year

/-- Sum of the `expected_cost` fields over an opportunity's edges. -/
def sumExpectedCosts (op : ArbitrageOpportunity) : Dec :=
  (op.edges.map (fun e => e.expected_cost)).sum

/-! ### `risk/mod.rs` -/

/-- `PositionType`. -/
inductive PositionType where
  | Long
  | SyntheticShort
deriving DecidableEq, Repr

/-- `Position` (the mutable `current_pnl` field, always zero in the modelled
paths, is elided). -/
structure Position where
  market_id : String
  asset_id : String
  outcome : String
  position_type : PositionType
  size : Dec
  avg_price : Dec
  total_cost : Dec
  entry_time : Int
deriving DecidableEq, Repr

/-- `DailyPnlTracker`. -/
structure DailyPnlTracker where
  date : String
  realized_pnl : Dec
  unrealized_pnl : Dec
  total_pnl : Dec
  trade_count : ℕ
  arb_count : ℕ
deriving DecidableEq, Repr

/-- The mutable state of `RiskManager` (`last_cleanup` elided; the
`positions` map is keyed by `asset_id` as in `add_position`). -/
structure RiskState where
  positions : List (String × Position)
  market_exposure : List (String × Dec)
  event_exposure : List (String × Dec)
  daily_pnl : DailyPnlTracker
  active_arbs : ℕ
deriving DecidableEq, Repr

/-- `RiskManager::new` (state part). -/
def RiskState.new (today : String) : RiskState :=
  { positions := [], market_exposure := [], event_exposure := [],
    daily_pnl :=
      { date := today, realized_pnl := 0, unrealized_pnl := 0,
        total_pnl := 0, trade_count := 0, arb_count := 0 },
    active_arbs := 0 }

/-- `RiskManager::reset_daily_pnl`. -/
def resetDailyPnl (st : RiskState) (today : String) : RiskState :=
  { st with daily_pnl :=
      { date := today, realized_pnl := 0, unrealized_pnl := 0,
        total_pnl := 0, trade_count := 0, arb_count := 0 } }

/-- The UTC-midnight rollover at the top of `can_execute_arbitrage`:
reset the daily tracker when the stored date differs from today. -/
def rolloverDaily (st : RiskState) (today : String) : RiskState :=
  if st.daily_pnl.date ≠ today then resetDailyPnl st today else st

/-- `net_delta` of `RiskManager::calculate_current_inventory`: the sum of
all position sizes. -/
def currentNetDelta (st : RiskState) : Dec :=
  (st.positions.map (fun p => p.2.size)).sum

/-- `net_delta` of `RiskManager::calculate_inventory_change`: the sum of
the opportunity's edge sizes. -/
def opportunityNetDelta (op : ArbitrageOpportunity) : Dec :=
  (op.edges.map (fun e => e.size)).sum

/-- `RiskManager::can_execute_arbitrage` (`src/risk/mod.rs:80-144`) after
the rollover, as a pure boolean check; the Rust function always returns
`Ok(_)`, so the verdict is total. -/
def canExecuteChecks (risk : RiskConfig) (trading : TradingConfig)
    (st : RiskState) (op : ArbitrageOpportunity) : Bool :=
  if st.active_arbs ≥ risk.max_concurrent_arbs then false
  else if st.daily_pnl.total_pnl < -((risk.daily_loss_limit : ℕ) : ℚ) then
    false
  else
    let current_market_exposure :=
      (alookup st.market_exposure op.market_id).getD 0
    let new_market_exposure := current_market_exposure + op.position_size
    if new_market_exposure > ((risk.max_exposure_per_market : ℕ) : ℚ) then
      false
    else if |currentNetDelta st + opportunityNetDelta op| >
        risk.inventory_drift_threshold then false
    else if op.min_liquidity < ((trading.min_liquidity : ℕ) : ℚ) then false
    else true

/-- `RiskManager::can_execute_arbitrage` including the daily rollover;
`today` is the wall-clock UTC date string read at the top of the function. -/
def canExecuteArbitrage (risk : RiskConfig) (trading : TradingConfig)
    (st : RiskState) (today : String) (op : ArbitrageOpportunity) : Bool :=
  canExecuteChecks risk trading (rolloverDaily st today) op

/-- The `success`/`partial_fill`/`filled` flags and `total_cost` of
`ExecutionResult` consumed by `record_arbitrage_execution`. -/
structure ExecResultFlags where
  success : Bool
  part_fill : Bool
  filled : Bool
  total_cost : Dec
deriving DecidableEq, Repr

/-- `RiskManager::add_position` (`src/risk/mod.rs:233-265`): inserts into
the `positions` map keyed by `asset_id`. -/
def addPosition (st : RiskState) (market_id asset_id outcome : String)
    (ptype : PositionType) (size price cost : Dec) (entry_time : Int) :
    RiskState :=
  let p : Position :=
    { market_id := market_id, asset_id := asset_id, outcome := outcome,
      position_type := ptype, size := size, avg_price := price,
      total_cost := cost, entry_time := entry_time }
  { st with positions := ainsert st.positions asset_id p }

/-- One iteration of the edge loop in `record_arbitrage_execution`
(`src/risk/mod.rs:155-173`): add the position and bump both exposure
tables (the source keys the event table by `market_id` as well). -/
def recordEdge (market_id : String) (entry_time : Int) (st : RiskState)
    (e : ArbEdge) : RiskState :=
  let st := addPosition st market_id e.asset_id e.outcome PositionType.Long
    e.size e.price e.expected_cost entry_time
  { st with
    market_exposure := aadd st.market_exposure market_id e.size,
    event_exposure := aadd st.event_exposure market_id e.size }

/-- One stale position in `cleanup_stale_positions`
(`src/risk/mod.rs:309-317`): `market_exposure.get_mut(market).unwrap() -=
size` and `active_arbs.saturating_sub(1)`.  The `unwrap` is modelled as
`none` on a missing key. -/
def sweepOne (st : RiskState) (p : Position) : Option RiskState :=
  match alookup st.market_exposure p.market_id with
  | none => none
  | some v =>
    some { st with
      market_exposure := aset st.market_exposure p.market_id (v - p.size),
      active_arbs := st.active_arbs - 1 }

/-- Whether a position is stale at `now` for `cleanup_stale_positions`. -/
def isStalePos (now : Int) (timeout_secs : ℕ) (p : Position) : Bool :=
  now - p.entry_time > (timeout_secs : ℤ)

/-- `RiskManager::cleanup_stale_positions` (`src/risk/mod.rs:303-332`):
decrement exposure and the arb counter for every stale position, then
remove the stale positions. -/
def cleanupStalePositions (st : RiskState) (now : Int)
    (timeout_secs : ℕ) : Option RiskState :=
  let stale := st.positions.filter (fun pr => isStalePos now timeout_secs pr.2)
  (stale.foldlM (fun s pr => sweepOne s pr.2) st).map (fun s =>
    { s with positions :=
        st.positions.filter (fun pr => ! isStalePos now timeout_secs pr.2) })

/-- `RiskManager::record_arbitrage_execution` (`src/risk/mod.rs:146-192`):
on success or partial fill, bump `active_arbs`, record every edge and the
daily counters; then always run the stale-position cleanup.  `entry_time`
is the `Utc::now` read inside `add_position`; `now` the one inside the
cleanup. -/
def recordArbitrageExecution (st : RiskState) (op : ArbitrageOpportunity)
    (result : ExecResultFlags) (entry_time now : Int) (timeout_secs : ℕ) :
    Option RiskState :=
  let st :=
    if result.success || result.part_fill then
      let st := { st with active_arbs := st.active_arbs + 1 }
      let st := op.edges.foldl (recordEdge op.market_id entry_time) st
      let st := { st with daily_pnl :=
        { st.daily_pnl with
          arb_count := st.daily_pnl.arb_count + 1,
          trade_count := st.daily_pnl.trade_count + 1,
          realized_pnl :=
            if result.filled then st.daily_pnl.realized_pnl + result.total_cost
            else st.daily_pnl.realized_pnl } }
      st
    else st
  cleanupStalePositions st now timeout_secs

/-- An event in a risk-manager trace: a successful-admission recording or a
position sweep. -/
inductive RiskEvent where
  | record (op : ArbitrageOpportunity) (result : ExecResultFlags)
      (entry_time now : Int)
  | sweep (now : Int)
deriving Repr

/-- Apply one trace event to the risk state. -/
def applyRiskEvent (timeout_secs : ℕ) (st : RiskState) (e : RiskEvent) :
    Option RiskState :=
  match e with
  | RiskEvent.record op result entry_time now =>
    recordArbitrageExecution st op result entry_time now timeout_secs
  | RiskEvent.sweep now => cleanupStalePositions st now timeout_secs

/-- Apply a whole trace of recordings and sweeps. -/
def applyRiskTrace (timeout_secs : ℕ) (events : List RiskEvent)
    (st : RiskState) : Option RiskState :=
  events.foldlM (applyRiskEvent timeout_secs) st

/-! ### `parallel_scanner/mod.rs` -/

/-- `CorrelationType`. -/
inductive CorrelationType where
  | Parent
  | Sibling
  | Opposite
  | Dependent
deriving DecidableEq, Repr

/-- `CrossArbType`. -/
inductive CrossArbType where
  | LogicalImplication
  | MutualExclusion
  | ConditionalPricing
  | TemporalDependency
deriving DecidableEq, Repr

/-- `CrossMarketOpportunity` (the display-only formatted question strings
are elided). -/
structure CrossMarketOpportunity where
  market_a_id : String
  market_b_id : String
  arb_type : CrossArbType
  edge : Dec
  position_size : Dec
  expected_profit : Dec
  confidence : Dec
  detected_at : Int
deriving DecidableEq, Repr

/-- `ParallelScanner::check_cross_market_opportunity`
(`src/parallel_scanner/mod.rs:480-573`) on the top-of-book prices it reads
(`yes_ask_a`, `yes_bid_a`, `yes_ask_b`, `yes_bid_b` are the first book's
best ask/bid of each market; the `?` operators requiring them to exist are
reflected by taking them as arguments).  `now` is `Utc::now().timestamp()`. -/
def checkCrossMarketOpportunity (max_arb_size : ℕ)
    (market_a_id market_b_id : String) (correlation_type : CorrelationType)
    (yes_ask_a yes_bid_a yes_ask_b yes_bid_b : Dec) (now : Int) :
    Option CrossMarketOpportunity :=
  let _ := yes_bid_a
  if yes_ask_a ≤ 1/100 ∨ yes_ask_a ≥ 99/100 ∨ yes_ask_b ≤ 1/100 ∨
      yes_ask_b ≥ 99/100 then none
  else
    match correlation_type with
    | CorrelationType.Parent =>
      let cost_to_lock := yes_ask_a + (1 - yes_bid_b)
      if cost_to_lock < 98/100 then
        let edge := 1 - cost_to_lock
        let position : Dec := (max_arb_size : ℚ)
        let fee := position * (2/100)
        let profit := position * edge - fee
        if profit > 50/100 then
          some { market_a_id := market_a_id, market_b_id := market_b_id,
                 arb_type := CrossArbType.LogicalImplication, edge := edge,
                 position_size := position, expected_profit := profit,
                 confidence := 8/10, detected_at := now }
        else none
      else none
    | CorrelationType.Opposite =>
      let cost := yes_ask_a + yes_ask_b
      if cost < 98/100 then
        let edge := 1 - cost
        let position : Dec := (max_arb_size : ℚ)
        let fee := position * (2/100)
        let profit := position * edge - fee
        if profit > 50/100 then
          some { market_a_id := market_a_id, market_b_id := market_b_id,
                 arb_type := CrossArbType.MutualExclusion, edge := edge,
                 position_size := position, expected_profit := profit,
                 confidence := 9/10, detected_at := now }
        else none
      else none
    | _ => none

/-! ### `executor/mod.rs` -/

/-- `OrderExecutor::validate_prices` (`src/executor/mod.rs:251-266`) as
implemented: the body only logs each edge and ends in `Ok(true)` — the
comparison against a fresh order-book read is an explicit placeholder
(`"Placeholder: implement actual check against fresh orderbook data"`).
`fresh_asks` models the fresh best-ask read the check is supposed to use;
the implementation ignores it. -/
def validatePrices (slippage_tolerance : Dec) (op : ArbitrageOpportunity)
    (fresh_asks : List (String × Dec)) : Bool :=
  let _ := slippage_tolerance
  let _ := op
  let _ := fresh_asks
  true

/-- The control decision at the top of `OrderExecutor::execute_arbitrage`
(`src/executor/mod.rs:268-297`): abort with a failed result when
`validate_prices` is false, otherwise proceed to build and submit orders. -/
inductive ExecPhase where
  | abortedBeforeOrders
  | buildsAndSubmitsOrders
deriving DecidableEq, Repr

/-- Whether `execute_arbitrage` aborts before creating any order or goes on
to `create_signed_orders` and `submit_orders_parallel`. -/
def executeArbitrageGate (slippage_tolerance : Dec)
    (op : ArbitrageOpportunity) (fresh_asks : List (String × Dec)) :
    ExecPhase :=
  if validatePrices slippage_tolerance op fresh_asks then
    ExecPhase.buildsAndSubmitsOrders
  else ExecPhase.abortedBeforeOrders

/-! ## Theorems -/

/-- C9: the short-window annualized-return computation is total: the divisor
`minutes_to_expiry.max(1)` is never zero, at `minutes_to_expiry = 0` it is
saturated to 1 (so `annualized_return = net_edge * 525600`), and for every
`minutes_to_expiry ≥ 1` the result is exactly
`net_edge * (525600 / minutes_to_expiry)`. -/
theorem c9_annualized_return_saturates (net_edge : Dec) (m : Int)
    (hm : 1 ≤ m) :
    ((max m 1 : ℤ) : ℚ) ≠ 0 ∧
    short_window_annualized_return net_edge 0 = net_edge * 525600 ∧
    short_window_annualized_return net_edge m
      = net_edge * (525600 / (m : ℚ)) := by
  refine ⟨?_, ?_, ?_⟩
  · have h1 : (1 : ℤ) ≤ max m 1 := le_max_right m 1
    exact_mod_cast (by omega : (max m 1 : ℤ) ≠ 0)
  · norm_num [short_window_annualized_return]
  · have hmax : max m 1 = m := max_eq_left hm
    simp only [short_window_annualized_return, hmax]
    norm_num

/-- Witness for C9 at `net_edge = 1/100`, `minutes_to_expiry = 5`. -/
theorem c9_witness :
    ((max (5 : ℤ) 1 : ℤ) : ℚ) ≠ 0 ∧
    short_window_annualized_return (1/100) 0 = (1/100) * 525600 ∧
    short_window_annualized_return (1/100) 5
      = (1/100) * (525600 / ((5 : ℤ) : ℚ)) :=
  c9_annualized_return_saturates (1/100) 5 (by norm_num)

/-- Opportunity used to exhibit the missing slippage check: its single edge
quotes price 0.40 while the fresh order-book read returns a best ask of
0.90 for the same asset — a deviation far beyond the 1% tolerance. -/
def slippageDeviatingOp : ArbitrageOpportunity :=
  { market_id := "m-slip"
    arb_type := ArbType.Binary
    edges := [ { asset_id := "A-slip", outcome := "YES", price := 40/100,
                 size := 100, expected_cost := 40 } ]
    total_edge := 3/100
    min_liquidity := 200
    position_size := 100
    expected_profit_usd := 5
    fee_cost := 2
    net_profit := 3
    timestamp := 0 }

/-- C8: the claim states that the live executor aborts before building or
submitting any order whenever an edge's quoted price deviates from a fresh
order-book read by more than `slippage_tolerance`.  The code does not:
`OrderExecutor::validate_prices` is an acknowledged placeholder that only
logs and returns `Ok(true)` without reading any fresh prices, so
`execute_arbitrage` proceeds to build and submit orders even for an edge
quoting 0.40 against a fresh best ask of 0.90 at tolerance 0.01. -/
theorem c8_slippage_placeholder :
    validatePrices (1/100) slippageDeviatingOp [("A-slip", 9/10)] = true ∧
    executeArbitrageGate (1/100) slippageDeviatingOp [("A-slip", 9/10)]
      = ExecPhase.buildsAndSubmitsOrders :=
  ⟨rfl, rfl⟩

/-- C7: every `LogicalImplication` opportunity emitted for a `Parent`
correlation edge whose prices pass the resolved-market filter satisfies:
it is emitted only if `cost = ask_a_yes + (1 - bid_b_yes) < 0.98`; its edge
is `1 - cost`; its expected profit is
`position * edge - position * 0.02` and is strictly greater than `0.50`;
and its confidence is `0.8`. -/
theorem c7_parent_cross_market (max_arb_size : ℕ) (ma mb : String)
    (yes_ask_a yes_bid_a yes_ask_b yes_bid_b : Dec) (now : Int)
    (op : CrossMarketOpportunity)
    (h : checkCrossMarketOpportunity max_arb_size ma mb
      CorrelationType.Parent yes_ask_a yes_bid_a yes_ask_b yes_bid_b now
        = some op) :
    yes_ask_a + (1 - yes_bid_b) < 98/100 ∧
    op.arb_type = CrossArbType.LogicalImplication ∧
    op.edge = 1 - (yes_ask_a + (1 - yes_bid_b)) ∧
    op.expected_profit
      = op.position_size * op.edge - op.position_size * (2/100) ∧
    op.expected_profit > 50/100 ∧
    op.confidence = 8/10 := by
  simp only [checkCrossMarketOpportunity] at h
  split_ifs at h with h1 h2 h3
  rw [Option.some_inj] at h
  subst h
  exact ⟨h2, rfl, rfl, rfl, h3, rfl⟩

/-- Witness for C7: a Parent edge at `ask_a = 0.40`, `bid_b = 0.50`
(`bid_a = 0.35`, `ask_b = 0.60`) with `max_arb_size = 100` is emitted. -/
theorem c7_witness :
    (40/100 : Dec) + (1 - 50/100) < 98/100 ∧
    (checkCrossMarketOpportunity 100 "A" "B" CorrelationType.Parent
        (40/100) (35/100) (60/100) (50/100) 0).elim False
      (fun op =>
        op.arb_type = CrossArbType.LogicalImplication ∧
        op.edge = 1 - ((40/100 : Dec) + (1 - 50/100)) ∧
        op.expected_profit
          = op.position_size * op.edge - op.position_size * (2/100) ∧
        op.expected_profit > 50/100 ∧
        op.confidence = 8/10) := by
  have h : checkCrossMarketOpportunity 100 "A" "B" CorrelationType.Parent
      (40/100) (35/100) (60/100) (50/100) 0
      = some { market_a_id := "A", market_b_id := "B",
               arb_type := CrossArbType.LogicalImplication, edge := 1/10,
               position_size := 100, expected_profit := 8,
               confidence := 8/10, detected_at := 0 } := by
    simp only [checkCrossMarketOpportunity]
    norm_num
  have hc := c7_parent_cross_market 100 "A" "B"
    (40/100) (35/100) (60/100) (50/100) 0 _ h
  rw [h]
  exact ⟨hc.1, hc.2⟩

/-- The stored book of the C1 store: asset `A`, timestamp 2000. -/
def c1StoredBook : OrderBook :=
  { market_id := "M", asset_id := "A", bids := [], asks := [],
    timestamp := 2000, hash := "h-old" }

/-- Store used for the C1 counterexample: market `M` holds one book for
asset `A` whose stored timestamp is 2000. -/
def c1Mgr : OrderBookManager :=
  { market_books :=
      [("M",
        { market_id := "M", asset_id_yes := none, asset_id_no := none,
          books := [c1StoredBook] })] }

/-- Snapshot used for the C1 counterexample: timestamp 900, which is 1100 ms
older than the stored timestamp 2000 but only 100 ms older than the wall
clock 1000. -/
def c1Snap : BookSnapshot :=
  { asset_id := "A", market := "M", bids := [], asks := [],
    timestamp := 900, hash := "h-new" }

/-- C1 counterexample: the claim says a snapshot whose `timestamp_ms` is
more than 500 ms older than the stored timestamp is discarded.  The code's
guard (`BookSnapshot::is_stale`) compares against the wall clock instead:
with the stored timestamp at 2000, wall clock 1000 and snapshot timestamp
900, the snapshot is 1100 ms older than the stored value yet is applied,
changing the stored timestamp (and hash). -/
theorem c1_counterexample :
    (c1Mgr.get_book "M" "A").map (fun b => b.timestamp) = some 2000 ∧
    ((2000 : ℤ) - 900 > 500) ∧
    ((c1Mgr.update_book 1000 "M" "A" c1Snap).get_book "M" "A").map
      (fun b => b.timestamp) = some 900 := by
  refine ⟨by decide, by decide, by decide⟩

/-- C1 (amended): provided the stored book's timestamp is not ahead of the
wall clock `now` read by the staleness guard, applying a snapshot whose
`timestamp_ms` is more than 500 ms older than the stored timestamp leaves
the store — hence the book's bids, asks, timestamp and hash — unchanged. -/
theorem c1_stale_snapshot_discarded (mgr : OrderBookManager) (now : Int)
    (market_id asset_id : String) (s : BookSnapshot) (b : OrderBook)
    (hb : mgr.get_book market_id asset_id = some b)
    (hclock : b.timestamp ≤ now)
    (hold : b.timestamp - s.timestamp > 500) :
    mgr.update_book now market_id asset_id s = mgr := by
  have hstale : s.is_stale now 500 = true := by
    have : now - s.timestamp > 500 := by omega
    simpa [BookSnapshot.is_stale] using this
  simp [OrderBookManager.update_book, hstale]

/-- Witness for C1: the stored book of `c1Mgr` (timestamp 2000) together
with wall clock 3000 and snapshot timestamp 900. -/
theorem c1_witness :
    c1Mgr.get_book "M" "A" = some c1StoredBook ∧
    c1Mgr.update_book 3000 "M" "A" c1Snap = c1Mgr := by
  refine ⟨by decide, ?_⟩
  exact c1_stale_snapshot_discarded c1Mgr 3000 "M" "A" c1Snap c1StoredBook
    (by decide) (by decide) (by decide)

/-- First snapshot for the C6 counterexample: asset `A0` with exactly one
bid level and one ask level (a tie). -/
def c6Snap0 : BookSnapshot :=
  { asset_id := "A0", market := "M", bids := [(1, 10)], asks := [(2, 10)],
    timestamp := 100, hash := "h0" }

/-- Second snapshot for the C6 counterexample: a different asset `A1`. -/
def c6Snap1 : BookSnapshot :=
  { asset_id := "A1", market := "M", bids := [(1, 5)], asks := [(2, 5)],
    timestamp := 200, hash := "h1" }

/-- The market books after the two C6 snapshots arrive in order. -/
def c6Books : MarketBooks :=
  ((MarketBooks.new "M").applySnapshot "M" "A0" c6Snap0).applySnapshot
    "M" "A1" c6Snap1

/-- C6 counterexample: the claim says that on a tie (the bid-level count
equals the ask-level count) the first-inserted book is tagged Yes.  With
the first-inserted book `A0` holding exactly one bid and one ask, the code
tags the second-inserted book `A1` as Yes: the comparison
`bids_0_len > asks_0_len` is false on a tie, and the else-branch assigns
Yes to the second book. -/
theorem c6_counterexample :
    (c6Books.books.map (fun b => b.asset_id)) = ["A0", "A1"] ∧
    (c6Books.books.map (fun b => b.bids.length)) = [1, 1] ∧
    (c6Books.books.map (fun b => b.asks.length)) = [1, 1] ∧
    c6Books.asset_id_yes = some "A1" ∧
    c6Books.asset_id_no = some "A0" := by
  refine ⟨by decide, by decide, by decide, by decide, by decide⟩

/-- Replacing-or-pushing a book for a fresh asset id onto a one-book list
appends it. -/
theorem replaceOrPush_singleton (b0 nb : OrderBook) (a : String)
    (h : b0.asset_id ≠ a) : replaceOrPush [b0] a nb = [b0, nb] := by
  simp [replaceOrPush, h]

/-- C6 (amended): when a market transitions to holding exactly two books,
exactly one book is tagged Yes and the other No (the tags are distinct
when the asset ids are).  Yes goes to the first-inserted book exactly when
that book has strictly more bid levels than ask levels; otherwise —
including the tie — Yes goes to the second-inserted book.  The second
book's level counts are never examined. -/
theorem c6_binary_labelling (mb : MarketBooks) (b0 : OrderBook)
    (market_id a1 : String) (s : BookSnapshot)
    (hbooks : mb.books = [b0]) (hne : b0.asset_id ≠ a1) :
    (mb.applySnapshot market_id a1 s).books.length = 2 ∧
    (mb.applySnapshot market_id a1 s).asset_id_yes
      = some (if b0.bids.length > b0.asks.length then b0.asset_id else a1) ∧
    (mb.applySnapshot market_id a1 s).asset_id_no
      = some (if b0.bids.length > b0.asks.length then a1 else b0.asset_id) ∧
    (mb.applySnapshot market_id a1 s).asset_id_yes
      ≠ (mb.applySnapshot market_id a1 s).asset_id_no := by
  simp only [MarketBooks.applySnapshot, hbooks, OrderBook.update_from_snapshot,
    OrderBook.new]
  rw [replaceOrPush_singleton _ _ _ hne]
  simp only [retagIfTwo]
  by_cases hgt : b0.bids.length > b0.asks.length
  · simp [hgt, hne]
  · simp [hgt, Ne.symm hne]

/-- Witness for C6 at the books of the counterexample run: the tie case,
where Yes goes to the second-inserted book. -/
theorem c6_witness :
    (c6Books.books.length = 2 ∧
      c6Books.asset_id_yes = some (if (1 : ℕ) > 1 then "A0" else "A1") ∧
      c6Books.asset_id_no = some (if (1 : ℕ) > 1 then "A1" else "A0") ∧
      c6Books.asset_id_yes ≠ c6Books.asset_id_no) := by
  have h := c6_binary_labelling
    ((MarketBooks.new "M").applySnapshot "M" "A0" c6Snap0)
    { market_id := "M", asset_id := "A0", bids := [(1, 10)],
      asks := [(2, 10)], timestamp := 100, hash := "h0" }
    "M" "A1" c6Snap1 (by decide) (by decide)
  exact h

/-- For a positive raw edge and a positive minimum edge, the sizing helper
computes exactly `base_max * clamp(raw_edge / min_edge, 0, 2)`. -/
theorem calculate_max_position_clamp (cfg : TradingConfig)
    (raw_edge min_edge : Dec) (b : ℕ) (hr : 0 < raw_edge)
    (hm : 0 < min_edge) :
    calculate_max_position cfg raw_edge min_edge b
      = (cfg.max_arb_size : ℚ) * max 0 (min (raw_edge / min_edge) 2) := by
  unfold calculate_max_position
  have hpos : 0 < raw_edge / min_edge := div_pos hr hm
  rcases le_or_lt (raw_edge / min_edge) 1 with h | h
  · rw [if_neg (not_lt.mpr h), min_eq_left (le_trans h (by norm_num)),
      max_eq_right hpos.le]
  · rw [if_pos h, max_eq_right (le_min (by linarith) (by norm_num))]

/-- C2: for a binary market with best asks summing to `S`, the detector
emits nothing when `S ≥ 1`; every emitted opportunity has
`position_size = min(base_max * clamp((1-S)/min_edge, 0, 2),
min(s_yes, s_no), max_arb_size)`, `fee_cost = position_size * 0.02`,
`net_profit = position_size * 1 - position_size * S - fee_cost`, and it is
emitted only when `net_profit > 0` and
`net_profit / position_size ≥ min_edge`. -/
theorem c2_binary_detector (cfg : TradingConfig)
    (market_id asset_yes asset_no : String)
    (price_yes size_yes price_no size_no : Dec) (blacklisted : Bool)
    (now : Int) (hmin : 0 < cfg.min_edge) :
    (1 ≤ price_yes + price_no →
      detect_binary_arbitrage cfg market_id
        [(asset_yes, price_yes, size_yes), (asset_no, price_no, size_no)]
        blacklisted now = none) ∧
    ∀ op,
      detect_binary_arbitrage cfg market_id
        [(asset_yes, price_yes, size_yes), (asset_no, price_no, size_no)]
        blacklisted now = some op →
      op.position_size
        = min (min ((cfg.max_arb_size : ℚ) *
              max 0 (min ((1 - (price_yes + price_no)) / cfg.min_edge) 2))
            (min size_yes size_no)) (cfg.max_arb_size : ℚ) ∧
      op.fee_cost = op.position_size * (2 / 100) ∧
      op.net_profit = op.position_size * 1
        - op.position_size * (price_yes + price_no) - op.fee_cost ∧
      0 < op.net_profit ∧
      cfg.min_edge ≤ op.net_profit / op.position_size := by
  constructor
  · intro hge
    simp only [detect_binary_arbitrage]
    split_ifs <;> rfl
  · intro op h
    simp only [detect_binary_arbitrage] at h
    split_ifs at h with h1 h2 h3 h4 h5 h6
    rw [Option.some_inj] at h
    subst h
    have hS : price_yes + price_no < 1 := not_le.mp h2
    have hraw : 0 < 1 - (price_yes + price_no) := by linarith
    refine ⟨?_, by ring, by ring, not_le.mp h4, not_lt.mp h5⟩
    simp only [calculate_max_position_clamp cfg _ _ _ hraw hmin]

/-- Configuration of spec scenario S1: `min_edge = 0.025`,
`min_liquidity = 100`, `max_arb_size = 100`. -/
def cfgS1 : TradingConfig :=
  { bankroll := 1000, max_arb_size := 100, min_edge := 1/40,
    min_liquidity := 100, slippage_tolerance := 1/100,
    short_window_min_edge := 1/125, short_window_max_size := 50 }

/-- Best asks of spec scenario S1. -/
def s1Asks : List (String × Dec × Dec) :=
  [("YA", 47/100, 200), ("NA", 48/100, 200)]

/-- Witness for C2 at spec scenario S1 (Yes ask 0.47 size 200, No ask 0.48
size 200, with `0 < min_edge` discharged concretely). -/
theorem c2_witness :
    (1 ≤ (47/100 : Dec) + 48/100 →
      detect_binary_arbitrage cfgS1 "m1"
        [("YA", 47/100, 200), ("NA", 48/100, 200)] false 0 = none) ∧
    ∀ op,
      detect_binary_arbitrage cfgS1 "m1"
        [("YA", 47/100, 200), ("NA", 48/100, 200)] false 0 = some op →
      op.position_size
        = min (min ((cfgS1.max_arb_size : ℚ) *
              max 0 (min ((1 - ((47/100 : Dec) + 48/100)) / cfgS1.min_edge) 2))
            (min 200 200)) (cfgS1.max_arb_size : ℚ) ∧
      op.fee_cost = op.position_size * (2 / 100) ∧
      op.net_profit = op.position_size * 1
        - op.position_size * ((47/100 : Dec) + 48/100) - op.fee_cost ∧
      0 < op.net_profit ∧
      cfgS1.min_edge ≤ op.net_profit / op.position_size :=
  c2_binary_detector cfgS1 "m1" "YA" "NA" (47/100) 200 (48/100) 200 false 0
    (by norm_num [cfgS1])

/-- The opportunity the binary detector emits at spec scenario S1. -/
def c3Op : ArbitrageOpportunity :=
  { market_id := "m1"
    arb_type := ArbType.Binary
    edges := [ { asset_id := "YA", outcome := "YES", price := 47/100,
                 size := 100, expected_cost := 47 },
               { asset_id := "NA", outcome := "NO", price := 48/100,
                 size := 100, expected_cost := 48 } ]
    total_edge := 3/100
    min_liquidity := 200
    position_size := 100
    expected_profit_usd := 5
    fee_cost := 2
    net_profit := 3
    timestamp := 0 }

/-- The binary detector emits `c3Op` at spec scenario S1. -/
theorem c3_emits :
    detect_binary_arbitrage cfgS1 "m1" s1Asks false 0 = some c3Op := by
  simp only [detect_binary_arbitrage, s1Asks, cfgS1, calculate_max_position,
    c3Op]
  norm_num

/-- Best asks of spec scenario S5: three outcomes at 0.30 with size 500. -/
def s5Asks : List (String × Dec × Dec) :=
  [("A1", 3/10, 500), ("A2", 3/10, 500), ("A3", 3/10, 500)]

/-- The opportunity the multi-outcome detector emits at spec scenario S5. -/
def c3MultiOp : ArbitrageOpportunity :=
  { market_id := "m5"
    arb_type := ArbType.MultiOutcome
    edges := [ { asset_id := "A1", outcome := "Outcome_0", price := 3/10,
                 size := 100/3, expected_cost := 10 },
               { asset_id := "A2", outcome := "Outcome_1", price := 3/10,
                 size := 100/3, expected_cost := 10 },
               { asset_id := "A3", outcome := "Outcome_2", price := 3/10,
                 size := 100/3, expected_cost := 10 } ]
    total_edge := 2/25
    min_liquidity := 500
    position_size := 100
    expected_profit_usd := 10
    fee_cost := 2
    net_profit := 8
    timestamp := 0 }

/-- The multi-outcome detector emits `c3MultiOp` at spec scenario S5. -/
theorem c3_multi_emits :
    detect_multi_outcome_arbitrage cfgS1 "m5" s5Asks false 0
      = some c3MultiOp := by
  simp only [detect_multi_outcome_arbitrage, s5Asks, cfgS1,
    calculate_max_position, c3MultiOp, List.enum]
  norm_num
  decide

/-- C3 counterexample: the claim says the emitted binary sum identity is
`Σ edge.expected_cost + fee_cost + net_profit = edge.size * 1 * #edges`.
At spec scenario S1 the emitted opportunity has two edges of size 100, so
the claimed right-hand side is `100 * 1 * 2 = 200`, but the actual sum is
`95 + 2 + 3 = 100` — off by 100, far beyond one rounding unit of the
28-digit decimal type. -/
theorem c3_counterexample :
    detect_binary_arbitrage cfgS1 "m1" s1Asks false 0 = some c3Op ∧
    sumExpectedCosts c3Op + c3Op.fee_cost + c3Op.net_profit = 100 ∧
    c3Op.edges.map (fun e => e.size) = [100, 100] ∧
    c3Op.edges.length = 2 ∧
    |(100 : ℚ) - 100 * 1 * 2| > 1 := by
  refine ⟨c3_emits, by norm_num [sumExpectedCosts, c3Op], by decide,
    by decide, by norm_num⟩

/-- The expected costs of the multi-outcome edge list sum to the per-outcome
position times the ask sum. -/
theorem sum_expected_costs_enum (l : List (String × Dec × Dec)) (per : Dec) :
    ((l.enum.map (fun ia : ℕ × String × Dec × Dec =>
        ({ asset_id := ia.2.1, outcome := "Outcome_" ++ toString ia.1,
           price := ia.2.2.1, size := per,
           expected_cost := per * ia.2.2.1 } : ArbEdge))).map
      (fun e => e.expected_cost)).sum
      = per * (l.map (fun a => a.2.1)).sum := by
  rw [List.map_map]
  have h1 : ((fun e : ArbEdge => e.expected_cost) ∘
      (fun ia : ℕ × String × Dec × Dec =>
        ({ asset_id := ia.2.1, outcome := "Outcome_" ++ toString ia.1,
           price := ia.2.2.1, size := per,
           expected_cost := per * ia.2.2.1 } : ArbEdge)))
      = fun ia : ℕ × String × Dec × Dec => per * ia.2.2.1 := rfl
  rw [h1, List.sum_map_mul_left l.enum (fun ia : ℕ × String × Dec × Dec => ia.2.2.1) per]
  have h2 : l.enum.map (fun ia : ℕ × String × Dec × Dec => ia.2.2.1)
      = (l.enum.map Prod.snd).map (fun a : String × Dec × Dec => a.2.1) := by
    rw [List.map_map]
    rfl
  rw [h2, List.enum_map_snd]

/-- C3 (amended): for every emitted single-market opportunity the accounting
identity holds with the detector's internal cost.  For binary,
`Σ edge.expected_cost + fee_cost + net_profit = position_size * 1` (each
binary edge has size `position_size`, so the right-hand side is
`edge.size * 1`, not `edge.size * 1` times the number of edges).  For
multi-outcome the stored edges carry per-outcome sizes
`position_size / n`, so the sum equals
`position_size * 1 - position_size * S * ((n - 1) / n)` where `S` is the
ask sum and `n` the number of outcomes.  In both cases
`net_profit / position_size ≥ min_edge`. -/
theorem c3_detector_accounting (cfg : TradingConfig)
    (market_id : String) (best_asks : List (String × Dec × Dec))
    (asset_yes asset_no : String)
    (price_yes size_yes price_no size_no : Dec)
    (blacklisted : Bool) (now : Int) :
    (∀ op, detect_binary_arbitrage cfg market_id
        [(asset_yes, price_yes, size_yes), (asset_no, price_no, size_no)]
        blacklisted now = some op →
      sumExpectedCosts op + op.fee_cost + op.net_profit
        = op.position_size * 1 ∧
      cfg.min_edge ≤ op.net_profit / op.position_size) ∧
    (∀ op, detect_multi_outcome_arbitrage cfg market_id best_asks
        blacklisted now = some op →
      sumExpectedCosts op + op.fee_cost + op.net_profit
        = op.position_size * 1 - op.position_size
            * ((best_asks.map (fun a => a.2.1)).sum)
            * (((best_asks.length : ℚ) - 1) / (best_asks.length : ℚ)) ∧
      cfg.min_edge ≤ op.net_profit / op.position_size) := by
  constructor
  · intro op h
    simp only [detect_binary_arbitrage] at h
    split_ifs at h with h1 h2 h3 h4 h5 h6
    rw [Option.some_inj] at h
    subst h
    refine ⟨?_, not_lt.mp h5⟩
    simp only [sumExpectedCosts, List.map_cons, List.map_nil, List.sum_cons,
      List.sum_nil]
    ring
  · intro op h
    simp only [detect_multi_outcome_arbitrage] at h
    split_ifs at h with h1 h2 h3 h4 h5 h6 h7
    rw [Option.some_inj] at h
    subst h
    have h2le : 2 ≤ best_asks.length := not_lt.mp h1
    have hn : (0 : ℚ) < (best_asks.length : ℚ) := by
      exact_mod_cast lt_of_lt_of_le (by norm_num) h2le
    refine ⟨?_, not_lt.mp h6⟩
    simp only [sumExpectedCosts]
    rw [sum_expected_costs_enum]
    field_simp
    ring

/-- Witness for C3: the amended accounting identity at the emitted
opportunities of scenarios S1 (binary) and S5 (multi-outcome). -/
theorem c3_witness :
    (sumExpectedCosts c3Op + c3Op.fee_cost + c3Op.net_profit
      = c3Op.position_size * 1 ∧
     cfgS1.min_edge ≤ c3Op.net_profit / c3Op.position_size) ∧
    (sumExpectedCosts c3MultiOp + c3MultiOp.fee_cost + c3MultiOp.net_profit
      = c3MultiOp.position_size * 1 - c3MultiOp.position_size
          * ((s5Asks.map (fun a => a.2.1)).sum)
          * (((s5Asks.length : ℚ) - 1) / (s5Asks.length : ℚ)) ∧
     cfgS1.min_edge ≤ c3MultiOp.net_profit / c3MultiOp.position_size) :=
  ⟨(c3_detector_accounting cfgS1 "m1" s5Asks "YA" "NA" (47/100) 200 (48/100)
      200 false 0).1 c3Op c3_emits,
   (c3_detector_accounting cfgS1 "m5" s5Asks "YA" "NA" (47/100) 200 (48/100)
      200 false 0).2 c3MultiOp c3_multi_emits⟩

/-- Risk configuration for the C4 counterexample: daily loss limit 100. -/
def c4Risk : RiskConfig :=
  { max_exposure_per_market := 1000, max_exposure_per_event := 1000,
    max_concurrent_arbs := 5, daily_loss_limit := 100,
    position_timeout_seconds := 86400, inventory_drift_threshold := 500 }

/-- Risk state for the C4 counterexample: the daily total P&L sits exactly
at `-daily_loss_limit`. -/
def c4St : RiskState :=
  { positions := [], market_exposure := [], event_exposure := [],
    daily_pnl :=
      { date := "2026-01-01", realized_pnl := -100, unrealized_pnl := 0,
        total_pnl := -100, trade_count := 3, arb_count := 1 },
    active_arbs := 0 }

/-- C4 counterexample: the claim requires `daily_pnl.total >
-daily_loss_limit` for admission, but the code only rejects when
`total_pnl < -daily_loss_limit`: at `total_pnl = -100` with limit 100 (all
other gates passing, no rollover pending) `can_execute_arbitrage` returns
true even though `total > -limit` is false. -/
theorem c4_counterexample :
    canExecuteArbitrage c4Risk cfgS1 c4St "2026-01-01" c3Op = true ∧
    rolloverDaily c4St "2026-01-01" = c4St ∧
    ¬ (c4St.daily_pnl.total_pnl > -((c4Risk.daily_loss_limit : ℕ) : ℚ)) := by
  refine ⟨?_, ?_, by norm_num [c4St, c4Risk]⟩
  · simp only [canExecuteArbitrage, canExecuteChecks, rolloverDaily,
      currentNetDelta, opportunityNetDelta, alookup, c4St, c4Risk, cfgS1,
      c3Op]
    norm_num
  · simp [rolloverDaily, c4St]

/-- C4 (amended): the admission check is a total boolean function of the
(rolled-over) risk state, and it returns true iff `active_arbs <
max_concurrent_arbs`, `daily_pnl.total ≥ -daily_loss_limit` (the code only
rejects strictly below the limit), projected market exposure stays within
`max_exposure_per_market`, the projected absolute net inventory delta stays
within `inventory_drift_threshold`, and `op.min_liquidity ≥
min_liquidity`. -/
theorem c4_admission_iff (risk : RiskConfig) (trading : TradingConfig)
    (st : RiskState) (today : String) (op : ArbitrageOpportunity) :
    canExecuteArbitrage risk trading st today op = true ↔
      ((rolloverDaily st today).active_arbs < risk.max_concurrent_arbs ∧
       -((risk.daily_loss_limit : ℕ) : ℚ)
         ≤ (rolloverDaily st today).daily_pnl.total_pnl ∧
       (alookup (rolloverDaily st today).market_exposure op.market_id).getD 0
         + op.position_size ≤ ((risk.max_exposure_per_market : ℕ) : ℚ) ∧
       |currentNetDelta (rolloverDaily st today) + opportunityNetDelta op|
         ≤ risk.inventory_drift_threshold ∧
       ((trading.min_liquidity : ℕ) : ℚ) ≤ op.min_liquidity) := by
  simp only [canExecuteArbitrage, canExecuteChecks]
  split_ifs with h1 h2 h3 h4 h5
  · simp only [Bool.false_eq_true, false_iff]
    intro hP
    exact absurd hP.1 (not_lt.mpr h1)
  · simp only [Bool.false_eq_true, false_iff]
    intro hP
    exact absurd hP.2.1 (not_le.mpr h2)
  · simp only [Bool.false_eq_true, false_iff]
    intro hP
    exact absurd hP.2.2.1 (not_le.mpr h3)
  · simp only [Bool.false_eq_true, false_iff]
    intro hP
    exact absurd hP.2.2.2.1 (not_le.mpr h4)
  · simp only [Bool.false_eq_true, false_iff]
    intro hP
    exact absurd hP.2.2.2.2 (not_le.mpr h5)
  · simp only [true_iff]
    exact ⟨not_le.mp h1, not_lt.mp h2, not_lt.mp h3, not_lt.mp h4,
      not_lt.mp h5⟩

/-- Witness for C4: the amended iff instantiated at the boundary state of
the counterexample. -/
theorem c4_witness :
    canExecuteArbitrage c4Risk cfgS1 c4St "2026-01-01" c3Op = true ↔
      ((rolloverDaily c4St "2026-01-01").active_arbs
          < c4Risk.max_concurrent_arbs ∧
       -((c4Risk.daily_loss_limit : ℕ) : ℚ)
         ≤ (rolloverDaily c4St "2026-01-01").daily_pnl.total_pnl ∧
       (alookup (rolloverDaily c4St "2026-01-01").market_exposure
           c3Op.market_id).getD 0 + c3Op.position_size
         ≤ ((c4Risk.max_exposure_per_market : ℕ) : ℚ) ∧
       |currentNetDelta (rolloverDaily c4St "2026-01-01")
           + opportunityNetDelta c3Op| ≤ c4Risk.inventory_drift_threshold ∧
       ((cfgS1.min_liquidity : ℕ) : ℚ) ≤ c3Op.min_liquidity) :=
  c4_admission_iff c4Risk cfgS1 c4St "2026-01-01" c3Op

/-! ### Association-list lemmas for the risk-state invariants -/

/-- Exposure lookup with the `unwrap_or(ZERO)` default. -/
def aget (l : List (String × Dec)) (k : String) : Dec :=
  (alookup l k).getD 0

/-- A key is present in an exposure table. -/
def hasKey (l : List (String × Dec)) (k : String) : Prop :=
  (alookup l k).isSome = true

theorem alookup_nil {α : Type} (k : String) :
    alookup ([] : List (String × α)) k = none := rfl

theorem alookup_cons {α : Type} (p : String × α)
    (rest : List (String × α)) (m : String) :
    alookup (p :: rest) m
      = if p.1 = m then some p.2 else alookup rest m := by
  by_cases h : p.1 = m <;> simp [alookup, List.find?_cons, h]

theorem aget_aadd (l : List (String × Dec)) (k m : String) (v : Dec) :
    aget (aadd l k v) m = aget l m + (if m = k then v else 0) := by
  induction l with
  | nil =>
    simp only [aadd, aget, alookup_cons, alookup_nil]
    by_cases h : k = m
    · subst h
      simp
    · rw [if_neg h, if_neg (fun hh => h hh.symm)]
      simp
  | cons p rest ih =>
    obtain ⟨k0, v0⟩ := p
    simp only [aadd]
    by_cases h0 : k0 = k
    · subst h0
      rw [if_pos rfl]
      simp only [aget, alookup_cons]
      by_cases hm : k0 = m
      · subst hm
        simp
      · rw [if_neg hm, if_neg hm, if_neg (fun hh : m = k0 => hm hh.symm)]
        simp [aget]
    · rw [if_neg h0]
      simp only [aget, alookup_cons] at ih ⊢
      by_cases hm : k0 = m
      · subst hm
        rw [if_pos rfl, if_pos rfl, if_neg (fun hh : k0 = k => h0 hh)]
        simp
      · rw [if_neg hm, if_neg hm]
        exact ih

theorem hasKey_aadd (l : List (String × Dec)) (k m : String) (v : Dec) :
    hasKey (aadd l k v) m ↔ (m = k ∨ hasKey l m) := by
  induction l with
  | nil =>
    simp only [aadd, hasKey, alookup_cons, alookup_nil]
    by_cases h : k = m
    · subst h
      simp
    · rw [if_neg h]
      simp only [Option.isSome_none, Bool.false_eq_true, false_iff]
      rw [or_false]
      exact fun hh => h hh.symm
  | cons p rest ih =>
    obtain ⟨k0, v0⟩ := p
    simp only [aadd]
    by_cases h0 : k0 = k
    · subst h0
      rw [if_pos rfl]
      simp only [hasKey, alookup_cons]
      by_cases hm : k0 = m
      · simp [hm]
      · simp only [if_neg hm]
        constructor
        · intro hs
          exact Or.inr hs
        · rintro (hh | hs)
          · exact absurd hh.symm hm
          · exact hs
    · rw [if_neg h0]
      simp only [hasKey, alookup_cons] at ih ⊢
      by_cases hm : k0 = m
      · simp [hm]
      · rw [if_neg hm, if_neg hm]
        exact ih

theorem alookup_aset (l : List (String × Dec)) (k m : String) (v : Dec)
    (hk : hasKey l k) :
    alookup (aset l k v) m = if m = k then some v else alookup l m := by
  induction l with
  | nil => simp [hasKey, alookup_nil] at hk
  | cons p rest ih =>
    obtain ⟨k0, v0⟩ := p
    simp only [aset]
    by_cases h0 : k0 = k
    · subst h0
      rw [if_pos rfl, alookup_cons, alookup_cons]
      by_cases hm : k0 = m
      · subst hm
        simp
      · rw [if_neg hm, if_neg hm, if_neg (fun hh : m = k0 => hm hh.symm)]
    · rw [if_neg h0]
      have hk' : hasKey rest k := by
        have := hk
        simp only [hasKey, alookup_cons, if_neg h0] at this
        exact this
      rw [alookup_cons, alookup_cons]
      by_cases hm : k0 = m
      · subst hm
        rw [if_pos rfl, if_pos rfl, if_neg (fun hh : k0 = k => h0 hh)]
      · rw [if_neg hm, if_neg hm]
        exact ih hk'

theorem aget_aset (l : List (String × Dec)) (k m : String) (v : Dec)
    (hk : hasKey l k) :
    aget (aset l k v) m = if m = k then v else aget l m := by
  by_cases hm : m = k
  · subst hm
    simp [aget, alookup_aset l m m v hk]
  · simp [aget, alookup_aset l k m v hk, hm]

theorem hasKey_aset (l : List (String × Dec)) (k m : String) (v : Dec)
    (hk : hasKey l k) :
    hasKey (aset l k v) m ↔ hasKey l m := by
  by_cases hm : m = k
  · subst hm
    simp only [hasKey, alookup_aset l m m v hk, if_pos rfl, Option.isSome_some]
    simpa [hasKey] using hk
  · simp [hasKey, alookup_aset l k m v hk, hm]

theorem mem_ainsert {α : Type} (l : List (String × α)) (k : String) (v : α)
    (x : String × α) (hx : x ∈ ainsert l k v) : x ∈ l ∨ x = (k, v) := by
  induction l with
  | nil =>
    simp only [ainsert, List.mem_singleton] at hx
    exact Or.inr hx
  | cons p rest ih =>
    simp only [ainsert] at hx
    by_cases h : p.1 = k
    · rw [if_pos h] at hx
      rcases List.mem_cons.mp hx with h1 | h1
      · exact Or.inr h1
      · exact Or.inl (List.mem_cons_of_mem p h1)
    · rw [if_neg h] at hx
      rcases List.mem_cons.mp hx with h1 | h1
      · exact Or.inl (h1 ▸ List.mem_cons_self p rest)
      · rcases ih h1 with h2 | h2
        · exact Or.inl (List.mem_cons_of_mem p h2)
        · exact Or.inr h2

theorem ainsert_fresh {α : Type} (l : List (String × α)) (k : String) (v : α)
    (hk : k ∉ l.map (fun pr => pr.1)) :
    ainsert l k v = l ++ [(k, v)] := by
  induction l with
  | nil => rfl
  | cons p rest ih =>
    simp only [List.map_cons, List.mem_cons] at hk
    push_neg at hk
    simp only [ainsert, if_neg (fun hh : p.1 = k => hk.1 hh.symm),
      List.cons_append, List.cons.injEq, true_and]
    exact ih hk.2

/-! ### Risk-state invariants (C5, C10) -/

/-- Total size of the open positions of one market. -/
def posSizeSum (st : RiskState) (m : String) : Dec :=
  ((st.positions.filter (fun pr => pr.2.market_id = m)).map
    (fun pr => pr.2.size)).sum

/-- Exposure accounting: every market's stored exposure equals the summed
size of its open positions. -/
def exposureMatches (st : RiskState) : Prop :=
  ∀ m, aget st.market_exposure m = posSizeSum st m

/-- Every position's market id is a key of the market-exposure table. -/
def positionsKeyClosed (st : RiskState) : Prop :=
  ∀ pr ∈ st.positions, hasKey st.market_exposure pr.2.market_id

/-- The position record built by one `record_arbitrage_execution` edge. -/
def mkPosition (market_id : String) (entry_time : Int) (e : ArbEdge) :
    Position :=
  { market_id := market_id, asset_id := e.asset_id, outcome := e.outcome,
    position_type := PositionType.Long, size := e.size, avg_price := e.price,
    total_cost := e.expected_cost, entry_time := entry_time }

/-- The asset ids recorded by a trace, in order. -/
def traceAssets : List RiskEvent → List String
  | [] => []
  | RiskEvent.record op _ _ _ :: rest =>
    op.edges.map (fun e => e.asset_id) ++ traceAssets rest
  | RiskEvent.sweep _ :: rest => traceAssets rest

/-- Whether a trace event records an opportunity with exactly one edge. -/
def eventOneEdge : RiskEvent → Bool
  | RiskEvent.record op _ _ _ => op.edges.length == 1
  | RiskEvent.sweep _ => true

/-- Splitting a filtered sum along a second predicate. -/
theorem filter_map_sum_split {α : Type} (l : List α) (f : α → ℚ)
    (p q : α → Bool) :
    ((l.filter p).map f).sum
      = (((l.filter q).filter p).map f).sum
        + (((l.filter (fun x => ! q x)).filter p).map f).sum := by
  induction l with
  | nil => simp
  | cons x xs ih =>
    by_cases hq : q x = true <;> by_cases hp : p x = true <;>
      simp [List.filter_cons, hq, hp, ih] <;> ring

/-- The fold of `sweepOne` over a list of positions whose markets all have
exposure entries: it succeeds, decrements the arb counter once per
position, and subtracts each position's size from its market's exposure. -/
theorem sweepFold_spec (ps : List (String × Position)) (st : RiskState)
    (hcl : ∀ pr ∈ ps, hasKey st.market_exposure pr.2.market_id) :
    ∃ s, ps.foldlM (fun s pr => sweepOne s pr.2) st = some s ∧
      s.positions = st.positions ∧
      s.event_exposure = st.event_exposure ∧
      s.daily_pnl = st.daily_pnl ∧
      s.active_arbs = st.active_arbs - ps.length ∧
      (∀ m, aget s.market_exposure m
        = aget st.market_exposure m
          - ((ps.filter (fun pr => pr.2.market_id = m)).map
              (fun pr => pr.2.size)).sum) ∧
      (∀ m, hasKey s.market_exposure m ↔ hasKey st.market_exposure m) := by
  induction ps generalizing st with
  | nil =>
    exact ⟨st, rfl, rfl, rfl, rfl, by simp, by simp, fun m => Iff.rfl⟩
  | cons pr rest ih =>
    have hk : hasKey st.market_exposure pr.2.market_id :=
      hcl pr (List.mem_cons_self pr rest)
    obtain ⟨v, hv⟩ : ∃ v,
        alookup st.market_exposure pr.2.market_id = some v := by
      cases hvv : alookup st.market_exposure pr.2.market_id with
      | none => rw [hasKey, hvv] at hk; simp at hk
      | some v => exact ⟨v, rfl⟩
    have hsweep : sweepOne st pr.2 = some
        { st with
          market_exposure :=
            aset st.market_exposure pr.2.market_id (v - pr.2.size),
          active_arbs := st.active_arbs - 1 } := by
      rw [sweepOne, hv]
    set s1 : RiskState :=
      { st with
        market_exposure :=
          aset st.market_exposure pr.2.market_id (v - pr.2.size),
        active_arbs := st.active_arbs - 1 } with hs1
    have hk1 : ∀ q ∈ rest, hasKey s1.market_exposure q.2.market_id := by
      intro q hq
      have := hcl q (List.mem_cons_of_mem pr hq)
      exact (hasKey_aset st.market_exposure pr.2.market_id
        q.2.market_id (v - pr.2.size) hk).mpr this
    obtain ⟨s, hfold, hpos, hev, hdp, harb, hexp, hkeys⟩ := ih s1 hk1
    refine ⟨s, ?_, ?_, ?_, ?_, ?_, ?_, ?_⟩
    · rw [List.foldlM_cons, hsweep]
      simpa using hfold
    · simpa using hpos
    · simpa using hev
    · simpa using hdp
    · rw [harb]
      simp only [hs1, List.length_cons]
      omega
    · intro m
      rw [hexp m]
      have hgetv : aget st.market_exposure pr.2.market_id = v := by
        simp [aget, hv]
      have hs1get : aget s1.market_exposure m
          = aget st.market_exposure m
            - (if pr.2.market_id = m then pr.2.size else 0) := by
        simp only [hs1]
        rw [aget_aset st.market_exposure pr.2.market_id m (v - pr.2.size) hk]
        by_cases hm : m = pr.2.market_id
        · subst hm
          rw [if_pos rfl, if_pos rfl, hgetv]
        · rw [if_neg hm, if_neg (fun hh : pr.2.market_id = m => hm hh.symm)]
          ring
      rw [hs1get]
      by_cases hm : pr.2.market_id = m <;>
        simp [List.filter_cons, hm] <;> ring
    · intro m
      rw [hkeys m]
      exact hasKey_aset st.market_exposure pr.2.market_id m
        (v - pr.2.size) hk

/-- `cleanup_stale_positions` on a key-closed state: it succeeds, removes
exactly the stale positions, decrements the arb counter once per stale
position and each stale position's size from its market's exposure. -/
theorem cleanup_spec (st : RiskState) (now : Int) (t : ℕ)
    (hcl : positionsKeyClosed st) :
    ∃ s, cleanupStalePositions st now t = some s ∧
      s.positions
        = st.positions.filter (fun pr => ! isStalePos now t pr.2) ∧
      s.event_exposure = st.event_exposure ∧
      s.daily_pnl = st.daily_pnl ∧
      s.active_arbs = st.active_arbs
        - (st.positions.filter (fun pr => isStalePos now t pr.2)).length ∧
      (∀ m, aget s.market_exposure m
        = aget st.market_exposure m
          - (((st.positions.filter (fun pr => isStalePos now t pr.2)).filter
              (fun pr => pr.2.market_id = m)).map (fun pr => pr.2.size)).sum) ∧
      (∀ m, hasKey s.market_exposure m ↔ hasKey st.market_exposure m) := by
  have hcl2 : ∀ pr ∈ st.positions.filter (fun pr => isStalePos now t pr.2),
      hasKey st.market_exposure pr.2.market_id := by
    intro pr hpr
    exact hcl pr (List.mem_of_mem_filter hpr)
  obtain ⟨s0, hfold, hpos, hev, hdp, harb, hexp, hkeys⟩ :=
    sweepFold_spec (st.positions.filter (fun pr => isStalePos now t pr.2))
      st hcl2
  refine ⟨{ s0 with positions :=
      st.positions.filter (fun pr => ! isStalePos now t pr.2) },
    ?_, rfl, hev, hdp, harb, hexp, hkeys⟩
  rw [cleanupStalePositions, hfold]
  rfl

/-- Sizes contributed to market `m` by the positions a recording appends:
all of them carry the recorded opportunity's market id. -/
theorem newPositions_sum (edges : List ArbEdge) (mid : String) (entry : Int)
    (m : String) :
    (((edges.map (fun e => (e.asset_id, mkPosition mid entry e))).filter
        (fun pr => pr.2.market_id = m)).map (fun pr => pr.2.size)).sum
      = if m = mid then (edges.map (fun e => e.size)).sum else 0 := by
  induction edges with
  | nil => simp
  | cons e rest ih =>
    by_cases hm : m = mid
    · subst hm
      simp only [mkPosition] at ih
      simp [List.filter_cons, mkPosition, ih]
    · have hmm : ¬ mid = m := fun hh => hm hh.symm
      simp only [mkPosition, if_neg hm] at ih
      simp [List.filter_cons, mkPosition, hm, hmm, ih]

/-- The edge loop of `record_arbitrage_execution` on fresh, pairwise
distinct asset ids: appends one position per edge, leaves the counter and
daily tracker alone, and adds the edges' total size to the market's
exposure entry. -/
theorem recordEdges_spec (edges : List ArbEdge) (mid : String) (entry : Int)
    (st : RiskState)
    (hfresh : ∀ e ∈ edges, e.asset_id ∉ st.positions.map (fun pr => pr.1))
    (hnd : (edges.map (fun e => e.asset_id)).Nodup) :
    (edges.foldl (recordEdge mid entry) st).positions
      = st.positions
          ++ edges.map (fun e => (e.asset_id, mkPosition mid entry e)) ∧
    (edges.foldl (recordEdge mid entry) st).active_arbs = st.active_arbs ∧
    (edges.foldl (recordEdge mid entry) st).daily_pnl = st.daily_pnl ∧
    (∀ m, aget (edges.foldl (recordEdge mid entry) st).market_exposure m
      = aget st.market_exposure m
        + (if m = mid then (edges.map (fun e => e.size)).sum else 0)) ∧
    (∀ m, hasKey (edges.foldl (recordEdge mid entry) st).market_exposure m
      ↔ ((edges ≠ [] ∧ m = mid) ∨ hasKey st.market_exposure m)) := by
  induction edges generalizing st with
  | nil => simp
  | cons e rest ih =>
    have hfr : e.asset_id ∉ st.positions.map (fun pr => pr.1) :=
      hfresh e (List.mem_cons_self e rest)
    have hs1pos : (recordEdge mid entry st e).positions
        = st.positions ++ [(e.asset_id, mkPosition mid entry e)] := by
      simp only [recordEdge, addPosition, mkPosition]
      exact ainsert_fresh _ _ _ hfr
    have hs1exp : (recordEdge mid entry st e).market_exposure
        = aadd st.market_exposure mid e.size := rfl
    have hs1arb : (recordEdge mid entry st e).active_arbs
        = st.active_arbs := rfl
    have hs1dp : (recordEdge mid entry st e).daily_pnl = st.daily_pnl := rfl
    simp only [List.map_cons, List.nodup_cons] at hnd
    have hfresh1 : ∀ f ∈ rest, f.asset_id ∉
        (recordEdge mid entry st e).positions.map (fun pr => pr.1) := by
      intro f hf
      rw [hs1pos]
      simp only [List.map_append, List.mem_append, List.map_cons,
        List.map_nil, List.mem_singleton]
      rintro (hcase | hcase)
      · exact hfresh f (List.mem_cons_of_mem e hf) hcase
      · exact hnd.1 (hcase ▸ List.mem_map_of_mem (fun x => x.asset_id) hf)
    obtain ⟨hp, ha, hd, hx, hk⟩ := ih (recordEdge mid entry st e) hfresh1 hnd.2
    refine ⟨?_, ?_, ?_, ?_, ?_⟩
    · rw [List.foldl_cons, hp, hs1pos]
      simp
    · rw [List.foldl_cons, ha, hs1arb]
    · rw [List.foldl_cons, hd, hs1dp]
    · intro m
      rw [List.foldl_cons, hx m, hs1exp, aget_aadd]
      by_cases hm : m = mid <;> simp [hm] <;> ring
    · intro m
      rw [List.foldl_cons, hk m, hs1exp, hasKey_aadd]
      by_cases hm : m = mid <;> simp [hm]

/-- Cleanup preserves the exposure-accounting and key-closure invariants,
and keeps `active_arbs` equal to the number of open positions. -/
theorem cleanup_preserves (st : RiskState) (now : Int) (t : ℕ)
    (hexp : exposureMatches st) (hcl : positionsKeyClosed st) :
    ∃ s, cleanupStalePositions st now t = some s ∧
      exposureMatches s ∧ positionsKeyClosed s ∧
      (∀ pr ∈ s.positions, pr ∈ st.positions) ∧
      (st.active_arbs = st.positions.length →
        s.active_arbs = s.positions.length) := by
  obtain ⟨s, hrun, hpos, hev, hdp, harb, hx, hkeys⟩ :=
    cleanup_spec st now t hcl
  refine ⟨s, hrun, ?_, ?_, ?_, ?_⟩
  · intro m
    have hsplit := filter_map_sum_split st.positions (fun pr => pr.2.size)
      (fun pr => decide (pr.2.market_id = m))
      (fun pr => isStalePos now t pr.2)
    have h1 := hexp m
    simp only [posSizeSum] at h1 ⊢
    rw [hx m, hpos, h1, hsplit]
    ring
  · intro pr hpr
    rw [hpos] at hpr
    exact (hkeys pr.2.market_id).mpr (hcl pr (List.mem_of_mem_filter hpr))
  · intro pr hpr
    rw [hpos] at hpr
    exact List.mem_of_mem_filter hpr
  · intro hlen
    have hsum := List.length_eq_length_filter_add
      (l := st.positions) (fun pr => isStalePos now t pr.2)
    rw [harb, hpos, hlen]
    omega

/-- `record_arbitrage_execution` on fresh, pairwise-distinct edge asset ids
preserves the exposure-accounting and key-closure invariants; position keys
come from the prior state or the recorded edges; and when the recording is a
one-edge opportunity (or a failed result), `active_arbs` stays equal to the
number of open positions. -/
theorem record_spec (st : RiskState) (op : ArbitrageOpportunity)
    (res : ExecResultFlags) (entry now : Int) (t : ℕ)
    (hfresh : ∀ e ∈ op.edges, e.asset_id ∉ st.positions.map (fun pr => pr.1))
    (hnd : (op.edges.map (fun e => e.asset_id)).Nodup)
    (hexp : exposureMatches st) (hcl : positionsKeyClosed st) :
    ∃ s, recordArbitrageExecution st op res entry now t = some s ∧
      exposureMatches s ∧ positionsKeyClosed s ∧
      (∀ pr ∈ s.positions, pr.1 ∈ st.positions.map (fun q => q.1)
        ∨ pr.1 ∈ op.edges.map (fun e => e.asset_id)) ∧
      (st.active_arbs = st.positions.length →
        (op.edges.length = 1 ∨ (res.success || res.part_fill) = false) →
        s.active_arbs = s.positions.length) := by
  cases hres : (res.success || res.part_fill) with
  | false =>
    have hrec : recordArbitrageExecution st op res entry now t
        = cleanupStalePositions st now t := by
      simp only [recordArbitrageExecution, hres, Bool.false_eq_true,
        if_false]
    obtain ⟨s, hrun, hexp2, hcl2, hsub, hlen⟩ := cleanup_preserves st now t
      hexp hcl
    refine ⟨s, hrec ▸ hrun, hexp2, hcl2, ?_, fun h _ => hlen h⟩
    intro pr hpr
    exact Or.inl (List.mem_map_of_mem (fun q => q.1) (hsub pr hpr))
  | true =>
    obtain ⟨hp, ha, hd, hx, hk⟩ := recordEdges_spec op.edges op.market_id
      entry { st with active_arbs := st.active_arbs + 1 } hfresh hnd
    set stM1 := op.edges.foldl (recordEdge op.market_id entry)
      { st with active_arbs := st.active_arbs + 1 } with hstM1
    set stM2 : RiskState := { stM1 with daily_pnl :=
      { stM1.daily_pnl with
        arb_count := stM1.daily_pnl.arb_count + 1,
        trade_count := stM1.daily_pnl.trade_count + 1,
        realized_pnl :=
          if res.filled then stM1.daily_pnl.realized_pnl + res.total_cost
          else stM1.daily_pnl.realized_pnl } } with hstM2
    have hrec : recordArbitrageExecution st op res entry now t
        = cleanupStalePositions stM2 now t := by
      simp only [recordArbitrageExecution, hres, if_true]
    have hM2pos : stM2.positions = st.positions
        ++ op.edges.map (fun e => (e.asset_id, mkPosition op.market_id entry e)) := hp
    have hM1pos : stM1.positions = st.positions
        ++ op.edges.map (fun e => (e.asset_id, mkPosition op.market_id entry e)) := hp
    have hM2arb : stM2.active_arbs = st.active_arbs + 1 := ha
    have hM2exp : exposureMatches stM2 := by
      intro m
      have hag : aget stM2.market_exposure m
          = aget st.market_exposure m
            + (if m = op.market_id then
                (op.edges.map (fun e => e.size)).sum else 0) := hx m
      simp only [posSizeSum, hM1pos, List.filter_append, List.map_append,
        List.sum_append]
      rw [hag, newPositions_sum, hexp m]
      rfl
    have hM2cl : positionsKeyClosed stM2 := by
      intro pr hpr
      rw [hM2pos] at hpr
      rcases List.mem_append.mp hpr with hmem | hmem
      · exact (hk pr.2.market_id).mpr (Or.inr (hcl pr hmem))
      · obtain ⟨e, he, rfl⟩ := List.mem_map.mp hmem
        refine (hk (mkPosition op.market_id entry e).market_id).mpr ?_
        refine Or.inl ⟨?_, rfl⟩
        intro hnil
        rw [hnil] at he
        exact absurd he (List.not_mem_nil e)
    obtain ⟨s, hrun, hexp2, hcl2, hsub, hlen⟩ := cleanup_preserves stM2 now t
      hM2exp hM2cl
    refine ⟨s, hrec ▸ hrun, hexp2, hcl2, ?_, ?_⟩
    · intro pr hpr
      have := hsub pr hpr
      rw [hM2pos] at this
      rcases List.mem_append.mp this with hmem | hmem
      · exact Or.inl (List.mem_map_of_mem (fun q => q.1) hmem)
      · obtain ⟨e, he, rfl⟩ := List.mem_map.mp hmem
        exact Or.inr (List.mem_map_of_mem (fun e => e.asset_id) he)
    · intro hlen0 hone
      rcases hone with hone | hone
      · refine hlen ?_
        rw [hM2arb, hM2pos, List.length_append, List.length_map, hone,
          hlen0]
      · exact absurd hone (by simp)

/-- Key closure is preserved by the edge loop, with no freshness
assumptions: every inserted position's market gets an exposure entry. -/
theorem recordEdges_closed (edges : List ArbEdge) (mid : String)
    (entry : Int) (st : RiskState) (hcl : positionsKeyClosed st) :
    positionsKeyClosed (edges.foldl (recordEdge mid entry) st) := by
  induction edges generalizing st with
  | nil => exact hcl
  | cons e rest ih =>
    rw [List.foldl_cons]
    refine ih (recordEdge mid entry st e) ?_
    intro pr hpr
    have hpr2 : pr ∈ ainsert st.positions e.asset_id
        (mkPosition mid entry e) := hpr
    rcases mem_ainsert st.positions e.asset_id (mkPosition mid entry e)
      pr hpr2 with hmem | hmem
    · exact (hasKey_aadd st.market_exposure mid pr.2.market_id
        e.size).mpr (Or.inr (hcl pr hmem))
    · subst hmem
      exact (hasKey_aadd st.market_exposure mid
        (mkPosition mid entry e).market_id e.size).mpr (Or.inl rfl)

/-- Cleanup on a key-closed state succeeds and stays key-closed. -/
theorem cleanup_closed (st : RiskState) (now : Int) (t : ℕ)
    (hcl : positionsKeyClosed st) :
    ∃ s, cleanupStalePositions st now t = some s ∧
      positionsKeyClosed s := by
  obtain ⟨s, hrun, hpos, _, _, _, _, hkeys⟩ := cleanup_spec st now t hcl
  refine ⟨s, hrun, ?_⟩
  intro pr hpr
  rw [hpos] at hpr
  exact (hkeys pr.2.market_id).mpr (hcl pr (List.mem_of_mem_filter hpr))

/-- Recording on a key-closed state succeeds (in particular the cleanup it
runs never misses an exposure key) and stays key-closed. -/
theorem record_closed (st : RiskState) (op : ArbitrageOpportunity)
    (res : ExecResultFlags) (entry now : Int) (t : ℕ)
    (hcl : positionsKeyClosed st) :
    ∃ s, recordArbitrageExecution st op res entry now t = some s ∧
      positionsKeyClosed s := by
  cases hres : (res.success || res.part_fill) with
  | false =>
    have hrec : recordArbitrageExecution st op res entry now t
        = cleanupStalePositions st now t := by
      simp only [recordArbitrageExecution, hres, Bool.false_eq_true,
        if_false]
    obtain ⟨s, hrun, hscl⟩ := cleanup_closed st now t hcl
    exact ⟨s, hrec ▸ hrun, hscl⟩
  | true =>
    set stM1 := op.edges.foldl (recordEdge op.market_id entry)
      { st with active_arbs := st.active_arbs + 1 } with hstM1
    set stM2 : RiskState := { stM1 with daily_pnl :=
      { stM1.daily_pnl with
        arb_count := stM1.daily_pnl.arb_count + 1,
        trade_count := stM1.daily_pnl.trade_count + 1,
        realized_pnl :=
          if res.filled then stM1.daily_pnl.realized_pnl + res.total_cost
          else stM1.daily_pnl.realized_pnl } } with hstM2
    have hrec : recordArbitrageExecution st op res entry now t
        = cleanupStalePositions stM2 now t := by
      simp only [recordArbitrageExecution, hres, if_true]
    have hclM1 : positionsKeyClosed stM1 :=
      recordEdges_closed op.edges op.market_id entry
        { st with active_arbs := st.active_arbs + 1 } hcl
    have hclM2 : positionsKeyClosed stM2 := hclM1
    obtain ⟨s, hrun, hscl⟩ := cleanup_closed stM2 now t hclM2
    exact ⟨s, hrec ▸ hrun, hscl⟩

/-- Every trace of recordings and sweeps from a key-closed state succeeds
and ends key-closed. -/
theorem applyRiskTrace_closed (t : ℕ) (tr : List RiskEvent) (st : RiskState)
    (hcl : positionsKeyClosed st) :
    ∃ s, applyRiskTrace t tr st = some s ∧ positionsKeyClosed s := by
  induction tr generalizing st with
  | nil => exact ⟨st, rfl, hcl⟩
  | cons e rest ih =>
    cases e with
    | record op res entry now =>
      obtain ⟨s1, h1, hcl1⟩ := record_closed st op res entry now t hcl
      obtain ⟨s, hs, hscl⟩ := ih s1 hcl1
      refine ⟨s, ?_, hscl⟩
      rw [applyRiskTrace, List.foldlM_cons]
      have : applyRiskEvent t st (RiskEvent.record op res entry now)
          = some s1 := h1
      rw [this]
      exact hs
    | sweep now =>
      obtain ⟨s1, h1, hcl1⟩ := cleanup_closed st now t hcl
      obtain ⟨s, hs, hscl⟩ := ih s1 hcl1
      refine ⟨s, ?_, hscl⟩
      rw [applyRiskTrace, List.foldlM_cons]
      have : applyRiskEvent t st (RiskEvent.sweep now) = some s1 := h1
      rw [this]
      exact hs

/-- C10: in every risk-manager state reachable from the initial state
through recordings and sweeps, every market id stored in the position table
is a key of the market-exposure table, and a further sweep from that state
never hits a missing-key failure (the modelled `unwrap` never sees
`none`). -/
theorem c10_sweep_lookup_succeeds (t : ℕ) (today : String)
    (tr : List RiskEvent) (st' : RiskState) (pr : String × Position)
    (now : Int)
    (hrun : applyRiskTrace t tr (RiskState.new today) = some st')
    (hmem : pr ∈ st'.positions) :
    hasKey st'.market_exposure pr.2.market_id ∧
    (cleanupStalePositions st' now t).isSome = true := by
  have hcl0 : positionsKeyClosed (RiskState.new today) := by
    intro q hq
    simp [RiskState.new] at hq
  obtain ⟨s, hs, hscl⟩ := applyRiskTrace_closed t tr _ hcl0
  rw [hrun] at hs
  injection hs with hs
  subst hs
  refine ⟨hscl pr hmem, ?_⟩
  obtain ⟨s2, h2, _⟩ := cleanup_closed st' now t hscl
  rw [h2]
  rfl

/-- The main trace invariant: with pairwise-distinct recorded asset ids,
every trace from a state satisfying the exposure-accounting and key-closure
invariants succeeds and preserves them; position keys stay inside the
allowed set extended by the recorded assets; and the arb counter tracks the
open-position count when every recorded opportunity has one edge. -/
theorem applyRiskTrace_inv (t : ℕ) (tr : List RiskEvent) (st : RiskState)
    (A : List String)
    (hA : ∀ pr ∈ st.positions, pr.1 ∈ A)
    (hdisj : ∀ a ∈ traceAssets tr, a ∉ A)
    (hnd : (traceAssets tr).Nodup)
    (hexp : exposureMatches st) (hcl : positionsKeyClosed st) :
    ∃ s, applyRiskTrace t tr st = some s ∧ exposureMatches s ∧
      positionsKeyClosed s ∧
      (∀ pr ∈ s.positions, pr.1 ∈ A ++ traceAssets tr) ∧
      (st.active_arbs = st.positions.length →
        tr.all eventOneEdge = true →
        s.active_arbs = s.positions.length) := by
  induction tr generalizing st A with
  | nil =>
    refine ⟨st, rfl, hexp, hcl, ?_, fun h _ => h⟩
    intro pr hpr
    simpa [traceAssets] using hA pr hpr
  | cons e rest ih =>
    cases e with
    | record op res entry now =>
      have htr : traceAssets (RiskEvent.record op res entry now :: rest)
          = op.edges.map (fun e => e.asset_id) ++ traceAssets rest := rfl
      rw [htr] at hdisj hnd
      have hndparts := List.nodup_append.mp hnd
      have hfresh : ∀ e ∈ op.edges,
          e.asset_id ∉ st.positions.map (fun pr => pr.1) := by
        intro e he hke
        obtain ⟨pr, hpr, hpra⟩ := List.mem_map.mp hke
        have hin : e.asset_id ∈ op.edges.map (fun e => e.asset_id) :=
          List.mem_map_of_mem (fun e => e.asset_id) he
        exact hdisj e.asset_id (List.mem_append_left _ hin)
          (hpra ▸ hA pr hpr)
      obtain ⟨s1, h1, hexp1, hcl1, hkeys1, hlen1⟩ :=
        record_spec st op res entry now t hfresh hndparts.1 hexp hcl
      have hA1 : ∀ pr ∈ s1.positions,
          pr.1 ∈ A ++ op.edges.map (fun e => e.asset_id) := by
        intro pr hpr
        rcases hkeys1 pr hpr with hmem | hmem
        · obtain ⟨q, hq, hqa⟩ := List.mem_map.mp hmem
          exact List.mem_append_left _ (hqa ▸ hA q hq)
        · exact List.mem_append_right _ hmem
      have hdisj1 : ∀ a ∈ traceAssets rest,
          a ∉ A ++ op.edges.map (fun e => e.asset_id) := by
        intro a ha hmem
        rcases List.mem_append.mp hmem with hmem | hmem
        · exact hdisj a (List.mem_append_right _ ha) hmem
        · exact hndparts.2.2 hmem ha
      obtain ⟨s, hs, hsexp, hscl, hskeys, hslen⟩ :=
        ih s1 (A ++ op.edges.map (fun e => e.asset_id)) hA1 hdisj1
          hndparts.2.1 hexp1 hcl1
      refine ⟨s, ?_, hsexp, hscl, ?_, ?_⟩
      · rw [applyRiskTrace, List.foldlM_cons]
        have : applyRiskEvent t st (RiskEvent.record op res entry now)
            = some s1 := h1
        rw [this]
        exact hs
      · intro pr hpr
        have := hskeys pr hpr
        rw [htr, ← List.append_assoc]
        exact this
      · intro h0 hall
        simp only [List.all_cons, Bool.and_eq_true] at hall
        have hone : op.edges.length = 1 := by
          have := hall.1
          simp only [eventOneEdge, beq_iff_eq] at this
          exact this
        exact hslen (hlen1 h0 (Or.inl hone)) hall.2
    | sweep now =>
      have htr : traceAssets (RiskEvent.sweep now :: rest)
          = traceAssets rest := rfl
      rw [htr] at hdisj hnd
      obtain ⟨s1, h1, hexp1, hcl1, hsub1, hlen1⟩ :=
        cleanup_preserves st now t hexp hcl
      have hA1 : ∀ pr ∈ s1.positions, pr.1 ∈ A :=
        fun pr hpr => hA pr (hsub1 pr hpr)
      obtain ⟨s, hs, hsexp, hscl, hskeys, hslen⟩ :=
        ih s1 A hA1 hdisj hnd hexp1 hcl1
      refine ⟨s, ?_, hsexp, hscl, ?_, ?_⟩
      · rw [applyRiskTrace, List.foldlM_cons]
        have : applyRiskEvent t st (RiskEvent.sweep now) = some s1 := h1
        rw [this]
        exact hs
      · intro pr hpr
        rw [htr]
        exact hskeys pr hpr
      · intro h0 hall
        simp only [List.all_cons, Bool.and_eq_true] at hall
        exact hslen (hlen1 h0) hall.2

/-- C5 (amended): after any interleaving of successful admission recordings
with pairwise-distinct edge asset ids and position-sweep expiries, every
market's stored exposure equals the summed size of that market's open
positions; and `active_arbs` equals the number of open positions — hence
the number of open opportunities — whenever every recorded opportunity has
exactly one edge.  (In general the sweep decrements `active_arbs` once per
swept position, not once per swept opportunity, so for multi-edge
opportunities the counter undercounts; see the counterexample.) -/
theorem c5_exposure_accounting (t : ℕ) (today : String)
    (tr : List RiskEvent) (st' : RiskState) (m : String)
    (hnd : (traceAssets tr).Nodup)
    (hrun : applyRiskTrace t tr (RiskState.new today) = some st') :
    aget st'.market_exposure m = posSizeSum st' m ∧
    (tr.all eventOneEdge = true →
      st'.active_arbs = st'.positions.length) := by
  have h0exp : exposureMatches (RiskState.new today) := by
    intro mm
    simp [RiskState.new, aget, alookup, posSizeSum]
  have h0cl : positionsKeyClosed (RiskState.new today) := by
    intro q hq
    simp [RiskState.new] at hq
  have h0A : ∀ pr ∈ (RiskState.new today).positions,
      pr.1 ∈ ([] : List String) := by
    intro q hq
    simp [RiskState.new] at hq
  have h0d : ∀ a ∈ traceAssets tr, a ∉ ([] : List String) := by
    intro a _ hmem
    exact absurd hmem (List.not_mem_nil a)
  obtain ⟨s, hs, hsexp, _, _, hslen⟩ :=
    applyRiskTrace_inv t tr (RiskState.new today) [] h0A h0d hnd h0exp h0cl
  rw [hrun] at hs
  injection hs with hs
  subst hs
  exact ⟨hsexp m, fun hall => hslen (by simp [RiskState.new]) hall⟩

/-- First opportunity of the C5 counterexample: two edges on market `m1`. -/
def c5Op1 : ArbitrageOpportunity :=
  { market_id := "m1", arb_type := ArbType.Binary,
    edges := [ { asset_id := "a1", outcome := "YES", price := 1,
                 size := 100, expected_cost := 100 },
               { asset_id := "a2", outcome := "NO", price := 1,
                 size := 100, expected_cost := 100 } ],
    total_edge := 1, min_liquidity := 100, position_size := 100,
    expected_profit_usd := 1, fee_cost := 1, net_profit := 1,
    timestamp := 0 }

/-- Second opportunity of the C5 counterexample: two edges on market
`m2`. -/
def c5Op2 : ArbitrageOpportunity :=
  { market_id := "m2", arb_type := ArbType.Binary,
    edges := [ { asset_id := "a3", outcome := "YES", price := 1,
                 size := 100, expected_cost := 100 },
               { asset_id := "a4", outcome := "NO", price := 1,
                 size := 100, expected_cost := 100 } ],
    total_edge := 1, min_liquidity := 100, position_size := 100,
    expected_profit_usd := 1, fee_cost := 1, net_profit := 1,
    timestamp := 0 }

/-- A successful, not-fully-filled execution result. -/
def c5Res : ExecResultFlags :=
  { success := true, part_fill := false, filled := false, total_cost := 0 }

/-- The C5 counterexample trace (timeout 100 s): record the two binary
opportunities at times 0 and 50, then sweep at time 140 — only `c5Op1`'s
two positions are stale. -/
def c5Trace : List RiskEvent :=
  [RiskEvent.record c5Op1 c5Res 0 0,
   RiskEvent.record c5Op2 c5Res 50 50,
   RiskEvent.sweep 140]

/-- C5 counterexample: after two successful two-edge recordings and one
sweep that expires only the first opportunity's positions, the second
opportunity is still open (both its `m2` positions remain), yet
`active_arbs` is 0, not 1: the sweep decrements the counter once per stale
position (twice here), not once per expired opportunity. -/
theorem c5_counterexample :
    (applyRiskTrace 100 c5Trace (RiskState.new "d")).map
        (fun s => s.active_arbs) = some 0 ∧
    (applyRiskTrace 100 c5Trace (RiskState.new "d")).map
        (fun s => s.positions.map (fun pr => pr.2.market_id))
      = some ["m2", "m2"] ∧
    (applyRiskTrace 100 c5Trace (RiskState.new "d")).map
        (fun s => s.positions.length) = some 2 := by
  have hrun : applyRiskTrace 100 c5Trace (RiskState.new "d") = some
      { positions := [("a3",
          { market_id := "m2", asset_id := "a3", outcome := "YES",
            position_type := PositionType.Long, size := 100, avg_price := 1,
            total_cost := 100, entry_time := 50 }),
         ("a4",
          { market_id := "m2", asset_id := "a4", outcome := "NO",
            position_type := PositionType.Long, size := 100, avg_price := 1,
            total_cost := 100, entry_time := 50 })],
        market_exposure := [("m1", 0), ("m2", 200)],
        event_exposure := [("m1", 200), ("m2", 200)],
        daily_pnl := { date := "d", realized_pnl := 0, unrealized_pnl := 0,
                       total_pnl := 0, trade_count := 2, arb_count := 2 },
        active_arbs := 0 } := by
    simp [applyRiskTrace, List.foldlM_cons, List.foldlM_nil, applyRiskEvent,
      recordArbitrageExecution, cleanupStalePositions, sweepOne, recordEdge,
      addPosition, aadd, ainsert, alookup, aset, isStalePos, RiskState.new,
      c5Op1, c5Op2, c5Res, c5Trace, List.filter_cons, List.filter_nil,
      List.find?]
    norm_num
  rw [hrun]
  refine ⟨rfl, by simp, by simp⟩

/-- The one-edge opportunity used by the C5 and C10 witnesses. -/
def c5wOp : ArbitrageOpportunity :=
  { market_id := "w1", arb_type := ArbType.Binary,
    edges := [ { asset_id := "b1", outcome := "YES", price := 1, size := 7,
                 expected_cost := 7 } ],
    total_edge := 1, min_liquidity := 7, position_size := 7,
    expected_profit_usd := 1, fee_cost := 1, net_profit := 1,
    timestamp := 0 }

/-- Witness trace: one successful one-edge recording, then a sweep that
expires nothing. -/
def c5wTrace : List RiskEvent :=
  [RiskEvent.record c5wOp c5Res 0 0, RiskEvent.sweep 40]

/-- The open position recorded by the witness trace. -/
def c5wPos : Position :=
  { market_id := "w1", asset_id := "b1", outcome := "YES",
    position_type := PositionType.Long, size := 7, avg_price := 1,
    total_cost := 7, entry_time := 0 }

/-- The state the witness trace reaches. -/
def c5wFinal : RiskState :=
  { positions := [("b1", c5wPos)],
    market_exposure := [("w1", 7)],
    event_exposure := [("w1", 7)],
    daily_pnl := { date := "d", realized_pnl := 0, unrealized_pnl := 0,
                   total_pnl := 0, trade_count := 1, arb_count := 1 },
    active_arbs := 1 }

/-- The witness trace reaches `c5wFinal`. -/
theorem c5w_run :
    applyRiskTrace 100 c5wTrace (RiskState.new "d") = some c5wFinal := by
  simp [applyRiskTrace, List.foldlM_cons, List.foldlM_nil, applyRiskEvent,
    recordArbitrageExecution, cleanupStalePositions, sweepOne, recordEdge,
    addPosition, aadd, ainsert, alookup, aset, isStalePos, RiskState.new,
    c5wOp, c5Res, c5wTrace, List.filter_cons, List.filter_nil, List.find?,
    c5wFinal, c5wPos]

/-- Witness for C5 at the one-edge witness trace. -/
theorem c5_witness :
    aget c5wFinal.market_exposure "w1" = posSizeSum c5wFinal "w1" ∧
    c5wFinal.active_arbs = c5wFinal.positions.length :=
  ⟨(c5_exposure_accounting 100 "d" c5wTrace c5wFinal "w1" (by decide)
      c5w_run).1,
   (c5_exposure_accounting 100 "d" c5wTrace c5wFinal "w1" (by decide)
      c5w_run).2 (by decide)⟩

/-- Witness for C10 at the witness trace: the open position's market has an
exposure key and a further sweep succeeds. -/
theorem c10_witness :
    hasKey c5wFinal.market_exposure ("b1", c5wPos).2.market_id ∧
    (cleanupStalePositions c5wFinal 40 100).isSome = true :=
  c10_sweep_lookup_succeeds 100 "d" c5wTrace c5wFinal ("b1", c5wPos) 40
    c5w_run (by simp [c5wFinal])

end HFTPM
